import Mathlib

/-!
CAN frame reassembly (`can_parser.cpp`).

A shallow embedding of the parser of `src/can_parser.cpp` and theorems about it.

Conventions of the embedding:

* a `uint8_t` / `uint16_t` / `size_t` value is a `Nat`; every place where the source
  narrows or wraps gets an explicit `% 2^w`;
* `x >> 4`, `x << 8` and `x & 0xF` are the `Nat` operations `>>>`, `<<<` and `&&&`;
* `std::vector<uint8_t>` is `List Nat`, one element per byte;
* `std::string_view` is `String`; one `Char` stands for one `char` of the source, and
  `std::from_chars` in base 16 is `fromChars`: it reads the longest run of hexadecimal
  digits at the start of its range and succeeds when that run is not empty;
* `std::map<uint16_t, PendingMessage>` is a key-ordered association list without
  duplicate keys;
* a member function that may throw returns a `Call`: the parser object as the call
  leaves it together with the exception thrown, if any;
* an access outside a vector (undefined behaviour in the source) is reported as
  `ParseError.OutOfRange`, so that its absence can be stated and proved.
-/

namespace CanParser

/-! ## Data model (`can_parser.h`, `can_parser.cpp` lines 9-43) -/

/-- The type `CanBuffer` of `can_parser.h`: `std::vector<uint8_t>`. -/
abbrev CanBuffer := List Nat

/-- The struct `CanMessage` of `can_parser.h`. -/
structure CanMessage where
  canId : Nat
  payload : CanBuffer
deriving DecidableEq, Repr

/-- The struct `CanParser::PendingMessage`. -/
structure PendingMessage where
  expectedSize : Nat
  expectedIndex : Nat
  payload : CanBuffer
deriving DecidableEq, Repr

/-- The kinds of `std::runtime_error` the parser throws, named as in the error taxonomy,
and `OutOfRange` for an access outside a vector or a string.

* `MalformedFrame`: "Incorrect frame length ..." (both sites of `addFrame`) and
  "Invalid hexadecimal character in ..." (`stringToBuffer`);
* `PayloadTooLarge`: "Received incorrect size for single message ...";
* `DuplicateSession`: "Received new first frame for an existing message ...";
* `NoSuchSession`: "Received consecutive frame for non existent message ...";
* `OutOfOrderFrame`: "Received unexpected consecutive frame index ...". -/
inductive ParseError where
  | MalformedFrame
  | PayloadTooLarge
  | DuplicateSession
  | NoSuchSession
  | OutOfOrderFrame
  | OutOfRange
deriving DecidableEq, Repr

/-- The member `pendingMessages`: `std::map<uint16_t, PendingMessage>`. -/
abbrev PendingMap := List (Nat × PendingMessage)

/-- The data members of `class CanParser`. -/
structure Parser where
  parsedMessages : List CanMessage
  pendingMessages : PendingMap
deriving DecidableEq, Repr

/-- A default-constructed `CanParser`. -/
def Parser.empty : Parser := ⟨[], []⟩

/-- The effect of one call of a member function: the object afterwards and the exception
that left the call, if any. -/
structure Call where
  parser : Parser
  thrown : Option ParseError
deriving DecidableEq, Repr

/-! ## `std::map` operations used by the parser -/

/-- The call `m.find(k)`, as the mapped value if the key is present. -/
def PendingMap.find : PendingMap → Nat → Option PendingMessage
  | [], _ => none
  | (k, v) :: rest, key => if k = key then some v else PendingMap.find rest key

/-- The call `m.contains(k)`. -/
def PendingMap.contains (m : PendingMap) (key : Nat) : Bool :=
  (m.find key).isSome

/-- Insertion of a new entry at its place in key order. -/
def PendingMap.insertOrdered : PendingMap → Nat → PendingMessage → PendingMap
  | [], key, v => [(key, v)]
  | (k, w) :: rest, key, v =>
    if key < k then (key, v) :: (k, w) :: rest
    else (k, w) :: PendingMap.insertOrdered rest key v

/-- The call `m.emplace(k, v)`: inserts the entry unless the key is already present. -/
def PendingMap.emplace (m : PendingMap) (key : Nat) (v : PendingMessage) : PendingMap :=
  if m.contains key then m else m.insertOrdered key v

/-- The call `m.erase(k)`. -/
def PendingMap.erase : PendingMap → Nat → PendingMap
  | [], _ => []
  | (k, w) :: rest, key =>
    if k = key then PendingMap.erase rest key else (k, w) :: PendingMap.erase rest key

/-- An assignment through the reference `m.at(k)`: replaces the mapped value of a key
that is present. -/
def PendingMap.assign : PendingMap → Nat → PendingMessage → PendingMap
  | [], _, _ => []
  | (k, w) :: rest, key, v =>
    if k = key then (k, v) :: rest else (k, w) :: PendingMap.assign rest key v

/-! ## `std::vector` accesses -/

/-- The expression `frame[i]`. -/
def byteAt (frame : CanBuffer) (i : Nat) : Except ParseError Nat :=
  match frame[i]? with
  | some b => .ok b
  | none => .error .OutOfRange

/-- The range `[frame.begin() + start, frame.begin() + start + count)`. -/
def byteRange (frame : CanBuffer) (start count : Nat) : Except ParseError CanBuffer :=
  if start + count ≤ frame.length then .ok ((frame.drop start).take count)
  else .error .OutOfRange

/-! ## `std::from_chars` and `CanParser::stringToBuffer` (lines 45-67) -/

/-- The value of a character as a digit in base 16, as `std::from_chars` reads it. -/
def hexDigit (c : Char) : Option Nat :=
  if '0' ≤ c ∧ c ≤ '9' then some (c.toNat - 48)
  else if 'a' ≤ c ∧ c ≤ 'f' then some (c.toNat - 87)
  else if 'A' ≤ c ∧ c ≤ 'F' then some (c.toNat - 55)
  else none

/-- The digits of the longest prefix of base-16 digits. -/
def leadingDigits : List Char → List Nat
  | [] => []
  | c :: rest =>
    match hexDigit c with
    | some d => d :: leadingDigits rest
    | none => []

/-- The call `std::from_chars(first, last, byteValue, 16)` with `uint8_t byteValue`, on
the characters of `[first, last)`: it reads the longest prefix of hexadecimal digits, and
reports an error (`none`) when that prefix is empty or its value does not fit 8 bits. -/
def fromChars (chars : List Char) : Option Nat :=
  match leadingDigits chars with
  | [] => none
  | ds =>
    let value := ds.foldl (fun acc d => 16 * acc + d) 0
    if value < 256 then some value else none

/-- The loop of `stringToBuffer` (lines 57-64), on the characters from index `i` on: each
round reads the characters at `i` and `i + 1`. -/
def decodePairs : List Char → Except ParseError CanBuffer
  | [] => .ok []
  | [c] =>
    match hexDigit c with
    | none => .error .MalformedFrame
    | some _ => .error .OutOfRange
  | c₁ :: c₂ :: rest =>
    match fromChars [c₁, c₂] with
    | none => .error .MalformedFrame
    | some byteValue =>
      match decodePairs rest with
      | .ok buffer => .ok (byteValue :: buffer)
      | .error e => .error e

/-- The function `CanParser::stringToBuffer`. -/
def stringToBuffer (frame : String) : Except ParseError CanBuffer :=
  match frame.data with
  | [] => .error .OutOfRange
  | c :: rest =>
    match fromChars [c] with
    | none => .error .MalformedFrame
    | some byteValue =>
      match decodePairs rest with
      | .ok buffer => .ok (byteValue :: buffer)
      | .error e => .error e

/-! ## The frame handlers (lines 102-183) -/

/-- The constant `expectedFrameLength`. -/
def expectedFrameLength : Nat := 19

/-- The constant `messageTypeIndex`. -/
def messageTypeIndex : Nat := 2

/-- The function `CanParser::getCanId`: `(frame[0] << 8) + frame[1]` as `uint16_t`. -/
def getCanId (frame : CanBuffer) : Except ParseError Nat :=
  match byteAt frame 0, byteAt frame 1 with
  | .ok b₀, .ok b₁ => .ok (((b₀ <<< 8) + b₁) % 2 ^ 16)
  | _, _ => .error .OutOfRange

/-- The function `CanParser::parseSingleFrame`. -/
def parseSingleFrame (p : Parser) (frame : CanBuffer) : Call :=
  match getCanId frame, byteAt frame messageTypeIndex with
  | .ok canId, .ok b =>
    let payloadSize := b &&& 0xF
    if payloadSize > 7 then ⟨p, some .PayloadTooLarge⟩
    else
      match byteRange frame 3 payloadSize with
      | .ok payload => ⟨{ p with parsedMessages := p.parsedMessages ++ [⟨canId, payload⟩] }, none⟩
      | .error e => ⟨p, some e⟩
  | _, _ => ⟨p, some .OutOfRange⟩

/-- The function `CanParser::parseFirstFrame`. -/
def parseFirstFrame (p : Parser) (frame : CanBuffer) : Call :=
  match getCanId frame with
  | .error e => ⟨p, some e⟩
  | .ok canId =>
    if p.pendingMessages.contains canId then ⟨p, some .DuplicateSession⟩
    else
      match byteAt frame messageTypeIndex, byteAt frame 3 with
      | .ok b, .ok sizeLow =>
        let expectedSize := (((b &&& 0xF) <<< 8) + sizeLow) % 2 ^ 16
        if expectedSize ≤ 6 then
          match byteRange frame 4 expectedSize with
          | .ok payload =>
            ⟨{ p with parsedMessages := p.parsedMessages ++ [⟨canId, payload⟩] }, none⟩
          | .error e => ⟨p, some e⟩
        else
          match byteRange frame 4 6 with
          | .ok payload =>
            ⟨{ p with pendingMessages :=
                p.pendingMessages.emplace canId ⟨expectedSize, 1, payload⟩ }, none⟩
          | .error e => ⟨p, some e⟩
      | _, _ => ⟨p, some .OutOfRange⟩

/-- The function `CanParser::parseConsecutiveFrame`. The subtraction of line 163 is in
`size_t`, 64 bits wide. -/
def parseConsecutiveFrame (p : Parser) (frame : CanBuffer) : Call :=
  match getCanId frame with
  | .error e => ⟨p, some e⟩
  | .ok canId =>
    match p.pendingMessages.find canId with
    | none => ⟨p, some .NoSuchSession⟩
    | some message =>
      match byteAt frame 2 with
      | .error e => ⟨p, some e⟩
      | .ok b =>
        let frameIndex := b &&& 0xF
        if frameIndex ≠ message.expectedIndex then ⟨p, some .OutOfOrderFrame⟩
        else
          let remainingData := (message.expectedSize + 2 ^ 64 - message.payload.length) % 2 ^ 64
          let payloadSize := min remainingData 7
          match byteRange frame 3 payloadSize with
          | .error e => ⟨p, some e⟩
          | .ok bytes =>
            let payload := message.payload ++ bytes
            let expectedIndex := ((message.expectedIndex + 1) &&& 0xF) % 2 ^ 8
            if payload.length = message.expectedSize then
              ⟨{ parsedMessages := p.parsedMessages ++ [⟨canId, payload⟩],
                 pendingMessages := p.pendingMessages.erase canId }, none⟩
            else
              ⟨{ p with pendingMessages :=
                  p.pendingMessages.assign canId ⟨message.expectedSize, expectedIndex, payload⟩ },
               none⟩

/-- The function `CanParser::parseFlowControlFrame`. The keys `canId + 0x20` and
`canId + 0x8` are converted to `uint16_t` by `erase`. -/
def parseFlowControlFrame (p : Parser) (frame : CanBuffer) : Call :=
  match byteAt frame messageTypeIndex with
  | .error e => ⟨p, some e⟩
  | .ok b =>
    let flag := b &&& 0xF
    if flag = 2 then
      match getCanId frame with
      | .error e => ⟨p, some e⟩
      | .ok canId =>
        ⟨{ p with pendingMessages :=
            (p.pendingMessages.erase ((canId + 0x20) % 2 ^ 16)).erase ((canId + 0x8) % 2 ^ 16) },
         none⟩
    else ⟨p, none⟩

/-! ## `CanParser::addFrame` (lines 69-100) and `parseCanFrames` (lines 185-192) -/

/-- The function `CanParser::addFrame`. -/
def addFrame (p : Parser) (frame : String) : Call :=
  if frame.length ≠ expectedFrameLength then ⟨p, some .MalformedFrame⟩
  else
    match stringToBuffer frame with
    | .error e => ⟨p, some e⟩
    | .ok buffer =>
      if buffer.length ≠ (expectedFrameLength + 1) / 2 then ⟨p, some .MalformedFrame⟩
      else
        match byteAt buffer messageTypeIndex with
        | .error e => ⟨p, some e⟩
        | .ok b =>
          match b >>> 4 with
          | 0 => parseSingleFrame p buffer
          | 1 => parseFirstFrame p buffer
          | 2 => parseConsecutiveFrame p buffer
          | 3 => parseFlowControlFrame p buffer
          | _ => ⟨p, none⟩

/-- The loop of `parseCanFrames` (lines 187-189) from a given parser object: the frames
are added in order, and the first exception leaves the loop. -/
def addFrames (p : Parser) : List String → Call
  | [] => ⟨p, none⟩
  | frame :: rest =>
    match addFrame p frame with
    | ⟨q, none⟩ => addFrames q rest
    | ⟨q, some e⟩ => ⟨q, some e⟩

/-- The function `parseCanFrames`: the messages of a fresh parser after all frames, or
the exception that left it. -/
def parseCanFrames (frames : List String) : Except ParseError (List CanMessage) :=
  match addFrames Parser.empty frames with
  | ⟨q, none⟩ => .ok q.parsedMessages
  | ⟨_, some e⟩ => .error e

/-! ## Vocabulary of the statements -/

/-- The bytes `stringToBuffer` returns for a frame, and no bytes when it throws. -/
def frameBytes (frame : String) : CanBuffer :=
  match stringToBuffer frame with
  | .ok buffer => buffer
  | .error _ => []

/-- A valid frame that is no flow-control frame: its string decodes to ten bytes and the
type nibble is not 3. -/
def isDataFrame (frame : String) : Bool :=
  match stringToBuffer frame with
  | .ok [_, _, c₂, _, _, _, _, _, _, _] => c₂ / 16 != 3
  | _ => false

/-- A frame whose string decodes to ten bytes and that carries the id `canId`. -/
def carriesId (canId : Nat) (frame : String) : Bool :=
  match stringToBuffer frame with
  | .ok [c₀, c₁, _, _, _, _, _, _, _, _] => 256 * c₀ + c₁ == canId
  | _ => false

/-- The messages of a sequence that have the id `canId`, in order. -/
def messagesOf (canId : Nat) (messages : List CanMessage) : List CanMessage :=
  messages.filter (fun m => m.canId == canId)

/-- Two parser objects that look the same from the id `canId`: `q` holds the messages of
`p` with that id, and both have the same session, or none, under it. -/
def agreeOn (canId : Nat) (p q : Parser) : Prop :=
  q.parsedMessages = messagesOf canId p.parsedMessages ∧
    q.pendingMessages.find canId = p.pendingMessages.find canId

/-- A frame that decodes to ten bytes, carries the id `canId`, has type nibble 2
(consecutive frame) and sequence number `seq`. -/
def isConsecutiveFrame (canId seq : Nat) (frame : String) : Bool :=
  match stringToBuffer frame with
  | .ok [c₀, c₁, c₂, _, _, _, _, _, _, _] =>
    256 * c₀ + c₁ == canId && c₂ / 16 == 2 && c₂ % 16 == seq
  | _ => false

/-- A run of consecutive frames for `canId` whose sequence numbers are `k mod 16`,
`(k + 1) mod 16`, and so on. -/
def consecutiveRun (canId : Nat) : Nat → List String → Bool
  | _, [] => true
  | k, frame :: rest =>
    isConsecutiveFrame canId (k % 16) frame && consecutiveRun canId (k + 1) rest

/-- The concatenation of `bytes[3..10)` of the frames of a run, in arrival order. -/
def runPayload : List String → CanBuffer
  | [] => []
  | frame :: rest => (frameBytes frame).drop 3 ++ runPayload rest

/-- A character that `std::from_chars` reads as a digit in base 16. -/
def isHexChar (c : Char) : Bool :=
  (hexDigit c).isSome

/-- The value, as a hexadecimal digit, of the character at index `i`; 0 when there is no
such character or it is no hexadecimal digit. -/
def digitAt (chars : List Char) (i : Nat) : Nat :=
  match chars[i]? with
  | some c => (hexDigit c).getD 0
  | none => 0

/-- Two characters that are equal or are the lower-case and the upper-case form of one
of the letters `a` to `f` (codes 97 to 102 and 65 to 70). -/
def sameHexCase (c d : Char) : Bool :=
  c == d ||
    (decide (97 ≤ c.toNat) && decide (c.toNat ≤ 102) && d.toNat + 32 == c.toNat) ||
    (decide (97 ≤ d.toNat) && decide (d.toNat ≤ 102) && c.toNat + 32 == d.toNat)

/-- Two character sequences of the same length that differ at most in the case of the
letters `a` to `f`. -/
def sameUpToCase : List Char → List Char → Bool
  | [], [] => true
  | c :: cs, d :: ds => sameHexCase c d && sameUpToCase cs ds
  | _, _ => false

/-- Two lists of frames of the same length whose frames, one by one, differ at most in the
case of the letters `a` to `f`. -/
def framesSameUpToCase : List String → List String → Bool
  | [], [] => true
  | s :: ss, t :: ts => sameUpToCase s.data t.data && framesSameUpToCase ss ts
  | _, _ => false

/-- A state the parser can be in: the state of a fresh parser after a sequence of
`addFrame` calls none of which threw. -/
def Reachable (p : Parser) : Prop :=
  ∃ frames : List String, addFrames Parser.empty frames = ⟨p, none⟩

/-- The shape of a pending session: `6 + 7 * k` bytes collected, fewer than the expected
size, which fits 12 bits, and the index `(k + 1) mod 16` expected next. -/
def SessionInvariant (s : PendingMessage) : Prop :=
  s.payload.length < s.expectedSize ∧ s.expectedSize ≤ 4095 ∧
    ∃ k, s.payload.length = 6 + 7 * k ∧ s.expectedIndex = (k + 1) % 16

/-! ## Arithmetic of the bit operations -/

theorem and_0xF (b : Nat) : b &&& 0xF = b % 16 :=
  Nat.and_pow_two_sub_one_eq_mod b 4

theorem shiftRight_4 (b : Nat) : b >>> 4 = b / 16 :=
  Nat.shiftRight_eq_div_pow b 4

theorem shiftLeft_8 (b : Nat) : b <<< 8 = b * 256 :=
  Nat.shiftLeft_eq b 8

/-! ## The association list behaves as a map -/

theorem PendingMap.find_erase (m : PendingMap) (key k : Nat) :
    (m.erase key).find k = if k = key then none else m.find k := by
  induction m with
  | nil => simp [PendingMap.erase, PendingMap.find]
  | cons e rest ih =>
    obtain ⟨k', w⟩ := e
    simp only [PendingMap.erase, PendingMap.find]
    split_ifs at ih ⊢ <;> simp_all [PendingMap.find]

theorem PendingMap.erase_of_find_none (m : PendingMap) (key : Nat)
    (h : m.find key = none) : m.erase key = m := by
  induction m with
  | nil => rfl
  | cons e rest ih =>
    obtain ⟨k', w⟩ := e
    by_cases h2 : k' = key
    · simp [PendingMap.find, h2] at h
    · simp only [PendingMap.find, h2, if_false] at h
      simp [PendingMap.erase, h2, ih h]

theorem PendingMap.find_assign (m : PendingMap) (key k : Nat) (v : PendingMessage) :
    (m.assign key v).find k =
      if k = key then (m.find key).map (fun _ => v) else m.find k := by
  induction m with
  | nil => simp [PendingMap.assign, PendingMap.find]
  | cons e rest ih =>
    obtain ⟨k', w⟩ := e
    simp only [PendingMap.assign, PendingMap.find]
    split_ifs at ih ⊢ <;> simp_all [PendingMap.find]

theorem PendingMap.find_insertOrdered (m : PendingMap) (key k : Nat) (v : PendingMessage)
    (hm : m.find key = none) :
    (m.insertOrdered key v).find k = if k = key then some v else m.find k := by
  induction m with
  | nil =>
    by_cases h : k = key
    · subst h
      simp [PendingMap.insertOrdered, PendingMap.find]
    · have h3 : ¬ key = k := fun h' => h h'.symm
      simp [PendingMap.insertOrdered, PendingMap.find, h, h3]
  | cons e rest ih =>
    obtain ⟨k', w⟩ := e
    have h4 : ¬ k' = key := by
      intro h'
      simp [PendingMap.find, h'] at hm
    have hrest : PendingMap.find rest key = none := by
      simpa [PendingMap.find, h4] using hm
    have ih' := ih hrest
    simp only [PendingMap.insertOrdered]
    by_cases h : k = key
    · subst h
      by_cases h1 : k < k'
      · simp [PendingMap.find, h1]
      · simpa [PendingMap.find, h1, h4] using ih'
    · have h3 : ¬ key = k := fun h' => h h'.symm
      simp only [h, if_false] at ih'
      by_cases h1 : key < k'
      · simp [PendingMap.find, h1, h, h3]
      · by_cases h5 : k' = k
        · subst h5
          simp [PendingMap.find, h1, h]
        · simp [PendingMap.find, h1, h, h5, ih']

theorem PendingMap.find_emplace (m : PendingMap) (key k : Nat) (v : PendingMessage) :
    (m.emplace key v).find k =
      if k = key then some ((m.find key).getD v) else m.find k := by
  unfold PendingMap.emplace PendingMap.contains
  cases hm : m.find key with
  | none =>
    simp only [Option.isSome_none, Bool.false_eq_true, if_false, Option.getD_none]
    exact PendingMap.find_insertOrdered m key k v hm
  | some w =>
    simp only [Option.isSome_some, if_true, Option.getD_some]
    by_cases h : k = key
    · subst h
      simp [hm]
    · simp [h]

/-! ## What `stringToBuffer` returns -/

theorem hexDigit_lt (c : Char) (d : Nat) (h : hexDigit c = some d) : d < 16 := by
  unfold hexDigit at h
  split_ifs at h with h1 h2 h3
  · have h1' : 48 ≤ c.toNat ∧ c.toNat ≤ 57 := h1
    simp at h; omega
  · have h2' : 97 ≤ c.toNat ∧ c.toNat ≤ 102 := h2
    simp at h; omega
  · have h3' : 65 ≤ c.toNat ∧ c.toNat ≤ 70 := h3
    simp at h; omega

theorem fromChars_lt (chars : List Char) (v : Nat) (h : fromChars chars = some v) :
    v < 256 := by
  unfold fromChars at h
  split at h
  · simp at h
  · simp only at h
    split_ifs at h with hv
    simp at h; omega

theorem fromChars_single_lt (c : Char) (v : Nat) (h : fromChars [c] = some v) : v < 16 := by
  unfold fromChars at h
  cases hd : hexDigit c with
  | none => simp [leadingDigits, hd] at h
  | some d =>
    have := hexDigit_lt c d hd
    simp [leadingDigits, hd] at h
    omega

theorem decodePairs_ok (chars : List Char) (buffer : CanBuffer)
    (h : decodePairs chars = .ok buffer) :
    chars.length = 2 * buffer.length ∧ ∀ b ∈ buffer, b < 256 := by
  induction chars using decodePairs.induct generalizing buffer with
  | case1 =>
    simp [decodePairs] at h
    subst h
    simp
  | case2 c hc => simp [decodePairs, hc] at h
  | case3 c x hc => simp [decodePairs, hc] at h
  | case4 c₁ c₂ rest hf => simp [decodePairs, hf] at h
  | case5 c₁ c₂ rest v hf buf hrest ih =>
    simp [decodePairs, hf, hrest] at h
    subst h
    obtain ⟨h1, h2⟩ := ih buf hrest
    refine ⟨by simp [h1]; omega, ?_⟩
    intro b hb
    rcases List.mem_cons.mp hb with rfl | hb
    · exact fromChars_lt _ _ hf
    · exact h2 b hb
  | case6 c₁ c₂ rest v hf e hrest ih => simp [decodePairs, hf, hrest] at h

theorem stringToBuffer_ok (frame : String) (buffer : CanBuffer)
    (h : stringToBuffer frame = .ok buffer) :
    frame.length + 1 = 2 * buffer.length ∧ (∀ b ∈ buffer, b < 256) ∧
      ∀ b, buffer.head? = some b → b < 16 := by
  unfold stringToBuffer at h
  have hl : frame.length = frame.data.length := rfl
  rw [hl]
  cases hd : frame.data with
  | nil => simp [hd] at h
  | cons c rest =>
    simp only [hd] at h
    cases hf : fromChars [c] with
    | none => simp [hf] at h
    | some v =>
      cases hr : decodePairs rest with
      | error e => simp [hf, hr] at h
      | ok buf =>
        simp [hf, hr] at h
        subst h
        obtain ⟨h1, h2⟩ := decodePairs_ok rest buf hr
        refine ⟨by simp [h1]; omega, ?_, ?_⟩
        · intro b hb
          rcases List.mem_cons.mp hb with rfl | hb
          · exact fromChars_lt _ _ hf
          · exact h2 b hb
        · intro b hb
          simp at hb
          subst hb
          exact fromChars_single_lt c _ hf

/-! ## The handlers on a ten-byte buffer -/

theorem length_of_decoded (frame : String) (b₀ b₁ b₂ b₃ b₄ b₅ b₆ b₇ b₈ b₉ : Nat)
    (hdec : stringToBuffer frame = .ok [b₀, b₁, b₂, b₃, b₄, b₅, b₆, b₇, b₈, b₉]) :
    frame.length = 19 := by
  have h := (stringToBuffer_ok frame _ hdec).1
  simp at h
  omega

theorem bounds_of_decoded (frame : String) (b₀ b₁ b₂ b₃ b₄ b₅ b₆ b₇ b₈ b₉ : Nat)
    (hdec : stringToBuffer frame = .ok [b₀, b₁, b₂, b₃, b₄, b₅, b₆, b₇, b₈, b₉]) :
    b₀ < 16 ∧ b₁ < 256 ∧ b₂ < 256 ∧ b₃ < 256 := by
  obtain ⟨_, h2, h3⟩ := stringToBuffer_ok frame _ hdec
  exact ⟨h3 b₀ rfl, h2 b₁ (by simp), h2 b₂ (by simp), h2 b₃ (by simp)⟩

theorem addFrame_of_decoded (p : Parser) (frame : String)
    (b₀ b₁ b₂ b₃ b₄ b₅ b₆ b₇ b₈ b₉ : Nat)
    (hdec : stringToBuffer frame = .ok [b₀, b₁, b₂, b₃, b₄, b₅, b₆, b₇, b₈, b₉]) :
    addFrame p frame =
      match b₂ / 16 with
      | 0 => parseSingleFrame p [b₀, b₁, b₂, b₃, b₄, b₅, b₆, b₇, b₈, b₉]
      | 1 => parseFirstFrame p [b₀, b₁, b₂, b₃, b₄, b₅, b₆, b₇, b₈, b₉]
      | 2 => parseConsecutiveFrame p [b₀, b₁, b₂, b₃, b₄, b₅, b₆, b₇, b₈, b₉]
      | 3 => parseFlowControlFrame p [b₀, b₁, b₂, b₃, b₄, b₅, b₆, b₇, b₈, b₉]
      | _ => ⟨p, none⟩ := by
  have hlen := length_of_decoded frame _ _ _ _ _ _ _ _ _ _ hdec
  simp [addFrame, expectedFrameLength, hlen, hdec, byteAt, messageTypeIndex, shiftRight_4]

theorem getCanId_ten (b₀ b₁ b₂ b₃ b₄ b₅ b₆ b₇ b₈ b₉ : Nat) (h₀ : b₀ < 16) (h₁ : b₁ < 256) :
    getCanId [b₀, b₁, b₂, b₃, b₄, b₅, b₆, b₇, b₈, b₉] = .ok (256 * b₀ + b₁) := by
  have h : (b₀ * 256 + b₁) % 65536 = 256 * b₀ + b₁ := by omega
  simp [getCanId, byteAt, shiftLeft_8, h]

theorem parseSingleFrame_ten (p : Parser) (b₀ b₁ b₂ b₃ b₄ b₅ b₆ b₇ b₈ b₉ : Nat)
    (h₀ : b₀ < 16) (h₁ : b₁ < 256) :
    parseSingleFrame p [b₀, b₁, b₂, b₃, b₄, b₅, b₆, b₇, b₈, b₉] =
      if b₂ % 16 > 7 then ⟨p, some .PayloadTooLarge⟩
      else ⟨{ parsedMessages := p.parsedMessages ++
                [⟨256 * b₀ + b₁, [b₃, b₄, b₅, b₆, b₇, b₈, b₉].take (b₂ % 16)⟩],
              pendingMessages := p.pendingMessages }, none⟩ := by
  simp only [parseSingleFrame, getCanId_ten _ _ _ _ _ _ _ _ _ _ h₀ h₁, byteAt,
    messageTypeIndex, and_0xF]
  by_cases h : b₂ % 16 > 7
  · simp [h]
  · have h' : 3 + b₂ % 16 ≤ 10 := by omega
    simp [h, byteRange, h']

theorem parseFirstFrame_ten (p : Parser) (b₀ b₁ b₂ b₃ b₄ b₅ b₆ b₇ b₈ b₉ : Nat)
    (h₀ : b₀ < 16) (h₁ : b₁ < 256) (h₃ : b₃ < 256) :
    parseFirstFrame p [b₀, b₁, b₂, b₃, b₄, b₅, b₆, b₇, b₈, b₉] =
      if p.pendingMessages.contains (256 * b₀ + b₁) then ⟨p, some .DuplicateSession⟩
      else if 256 * (b₂ % 16) + b₃ ≤ 6 then
        ⟨{ parsedMessages := p.parsedMessages ++
            [⟨256 * b₀ + b₁, [b₄, b₅, b₆, b₇, b₈, b₉].take (256 * (b₂ % 16) + b₃)⟩],
           pendingMessages := p.pendingMessages }, none⟩
      else
        ⟨{ parsedMessages := p.parsedMessages,
           pendingMessages := p.pendingMessages.emplace (256 * b₀ + b₁)
            ⟨256 * (b₂ % 16) + b₃, 1, [b₄, b₅, b₆, b₇, b₈, b₉]⟩ }, none⟩ := by
  have hs : (b₂ % 16 * 256 + b₃) % 65536 = 256 * (b₂ % 16) + b₃ := by omega
  simp only [parseFirstFrame, getCanId_ten _ _ _ _ _ _ _ _ _ _ h₀ h₁, byteAt,
    messageTypeIndex, and_0xF, shiftLeft_8]
  by_cases hc : p.pendingMessages.contains (256 * b₀ + b₁) = true
  · simp [hc]
  · by_cases h6 : 256 * (b₂ % 16) + b₃ ≤ 6
    · have h' : 4 + (256 * (b₂ % 16) + b₃) ≤ 10 := by omega
      simp [hc, hs, h6, byteRange, h']
    · simp [hc, hs, h6, byteRange]

theorem parseConsecutiveFrame_ten (p : Parser) (b₀ b₁ b₂ b₃ b₄ b₅ b₆ b₇ b₈ b₉ : Nat)
    (h₀ : b₀ < 16) (h₁ : b₁ < 256) :
    parseConsecutiveFrame p [b₀, b₁, b₂, b₃, b₄, b₅, b₆, b₇, b₈, b₉] =
      match p.pendingMessages.find (256 * b₀ + b₁) with
      | none => ⟨p, some .NoSuchSession⟩
      | some message =>
        if b₂ % 16 ≠ message.expectedIndex then ⟨p, some .OutOfOrderFrame⟩
        else
          let payload := message.payload ++ [b₃, b₄, b₅, b₆, b₇, b₈, b₉].take
            (min ((message.expectedSize + 2 ^ 64 - message.payload.length) % 2 ^ 64) 7)
          if payload.length = message.expectedSize then
            ⟨{ parsedMessages := p.parsedMessages ++ [⟨256 * b₀ + b₁, payload⟩],
               pendingMessages := p.pendingMessages.erase (256 * b₀ + b₁) }, none⟩
          else
            ⟨{ parsedMessages := p.parsedMessages,
               pendingMessages := p.pendingMessages.assign (256 * b₀ + b₁)
                ⟨message.expectedSize, (message.expectedIndex + 1) % 16, payload⟩ }, none⟩ := by
  simp only [parseConsecutiveFrame, getCanId_ten _ _ _ _ _ _ _ _ _ _ h₀ h₁, byteAt, and_0xF]
  cases hf : p.pendingMessages.find (256 * b₀ + b₁) with
  | none => rfl
  | some message =>
    have hidx : (message.expectedIndex + 1) % 16 % 256 = (message.expectedIndex + 1) % 16 := by
      omega
    have hr : 3 + min ((message.expectedSize + 18446744073709551616 - message.payload.length)
        % 18446744073709551616) 7 ≤ 10 := by omega
    by_cases hi : b₂ % 16 = message.expectedIndex
    · simp [hi, byteRange, hr, hidx]
    · simp [hi]

theorem parseFlowControlFrame_ten (p : Parser) (b₀ b₁ b₂ b₃ b₄ b₅ b₆ b₇ b₈ b₉ : Nat)
    (h₀ : b₀ < 16) (h₁ : b₁ < 256) :
    parseFlowControlFrame p [b₀, b₁, b₂, b₃, b₄, b₅, b₆, b₇, b₈, b₉] =
      if b₂ % 16 = 2 then
        ⟨{ parsedMessages := p.parsedMessages,
           pendingMessages :=
            (p.pendingMessages.erase (256 * b₀ + b₁ + 0x20)).erase (256 * b₀ + b₁ + 0x8) },
         none⟩
      else ⟨p, none⟩ := by
  have e1 : (256 * b₀ + b₁ + 0x20) % 2 ^ 16 = 256 * b₀ + b₁ + 0x20 := by omega
  have e2 : (256 * b₀ + b₁ + 0x8) % 2 ^ 16 = 256 * b₀ + b₁ + 0x8 := by omega
  simp only [parseFlowControlFrame, getCanId_ten _ _ _ _ _ _ _ _ _ _ h₀ h₁, byteAt,
    messageTypeIndex, and_0xF, e1, e2]
  by_cases h : b₂ % 16 = 2
  · simp [h]
  · simp [h]

theorem PendingMap.length_emplace (m : PendingMap) (key : Nat) (v : PendingMessage)
    (hm : m.find key = none) : (m.emplace key v).length = m.length + 1 := by
  have hins : ∀ l : PendingMap, (l.insertOrdered key v).length = l.length + 1 := by
    intro l
    induction l with
    | nil => rfl
    | cons e rest ih =>
      obtain ⟨k', w⟩ := e
      simp only [PendingMap.insertOrdered]
      split_ifs <;> simp [ih]
  simp [PendingMap.emplace, PendingMap.contains, hm, hins]

/-! ## Single frames -/

/-- C2: a decoded frame whose byte 2 has high nibble 0 and low nibble `L ≤ 7` is accepted;
exactly one message is appended, with id `256 * byte 0 + byte 1` and payload the `L`
bytes from offset 3, and the session table is left as it was. -/
theorem single_frame_appends_payload (p : Parser) (frame : String)
    (b₀ b₁ b₂ b₃ b₄ b₅ b₆ b₇ b₈ b₉ L : Nat)
    (hdec : stringToBuffer frame = .ok [b₀, b₁, b₂, b₃, b₄, b₅, b₆, b₇, b₈, b₉])
    (htype : b₂ / 16 = 0) (hlow : b₂ % 16 = L) (hL : L ≤ 7) :
    addFrame p frame =
        ⟨{ parsedMessages := p.parsedMessages ++
            [⟨256 * b₀ + b₁, (List.drop 3 [b₀, b₁, b₂, b₃, b₄, b₅, b₆, b₇, b₈, b₉]).take L⟩],
           pendingMessages := p.pendingMessages }, none⟩ ∧
      ((List.drop 3 [b₀, b₁, b₂, b₃, b₄, b₅, b₆, b₇, b₈, b₉]).take L).length = L := by
  obtain ⟨h₀, h₁, _, _⟩ := bounds_of_decoded frame _ _ _ _ _ _ _ _ _ _ hdec
  have hnot : ¬ b₂ % 16 > 7 := by omega
  constructor
  · rw [addFrame_of_decoded p frame _ _ _ _ _ _ _ _ _ _ hdec, htype]
    simp only [parseSingleFrame_ten p _ _ _ _ _ _ _ _ _ _ h₀ h₁, if_neg hnot, hlow]
    simp [hL]
  · simp [hL]

/-- The test `testSingleFrame`: the frame `7400210C00000000000` gives one message with id
`0x740` and payload `[0x10, 0xC0]`. -/
theorem single_frame_appends_payload_witness :
    addFrame Parser.empty "7400210C00000000000" =
      ⟨{ parsedMessages := [⟨0x740, [0x10, 0xC0]⟩], pendingMessages := [] }, none⟩ :=
  (single_frame_appends_payload Parser.empty "7400210C00000000000"
    0x7 0x40 0x02 0x10 0xC0 0 0 0 0 0 2 rfl rfl rfl (by decide)).1

/-- C9: a single frame whose length nibble exceeds 7 is rejected with `PayloadTooLarge`
and changes nothing; a single frame is accepted exactly when its length nibble is at
most 7. -/
theorem single_frame_length_check (p : Parser) (frame : String)
    (b₀ b₁ b₂ b₃ b₄ b₅ b₆ b₇ b₈ b₉ : Nat)
    (hdec : stringToBuffer frame = .ok [b₀, b₁, b₂, b₃, b₄, b₅, b₆, b₇, b₈, b₉])
    (htype : b₂ / 16 = 0) :
    (7 < b₂ % 16 → addFrame p frame = ⟨p, some .PayloadTooLarge⟩) ∧
      ((addFrame p frame).thrown = none ↔ b₂ % 16 ≤ 7) := by
  obtain ⟨h₀, h₁, _, _⟩ := bounds_of_decoded frame _ _ _ _ _ _ _ _ _ _ hdec
  rw [addFrame_of_decoded p frame _ _ _ _ _ _ _ _ _ _ hdec, htype]
  simp only [parseSingleFrame_ten p _ _ _ _ _ _ _ _ _ _ h₀ h₁]
  by_cases h : b₂ % 16 > 7
  · simp [h]
  · simp [h]
    omega

/-- The single frame `7400810C00000000000` declares 8 payload bytes and is rejected. -/
theorem single_frame_length_check_witness :
    addFrame Parser.empty "7400810C00000000000" = ⟨Parser.empty, some .PayloadTooLarge⟩ :=
  (single_frame_length_check Parser.empty "7400810C00000000000"
    0x7 0x40 0x08 0x10 0xC0 0 0 0 0 0 rfl rfl).1 (by decide)

/-! ## First frames -/

/-- C3: a first frame whose id has no open session, declaring the total size
`N = 256 * (low nibble of byte 2) + byte 3`. If `N ≤ 6`, one message with that id and the
`N` bytes from offset 4 is appended and the session table is left as it was. If `N > 6`,
no message is appended and one session is inserted for the id, with expected size `N`,
expected index 1 and the six bytes from offset 4; the sessions of other ids are as
before. -/
theorem first_frame_starts_session (p : Parser) (frame : String)
    (b₀ b₁ b₂ b₃ b₄ b₅ b₆ b₇ b₈ b₉ : Nat)
    (hdec : stringToBuffer frame = .ok [b₀, b₁, b₂, b₃, b₄, b₅, b₆, b₇, b₈, b₉])
    (htype : b₂ / 16 = 1)
    (hfree : p.pendingMessages.find (256 * b₀ + b₁) = none) :
    (256 * (b₂ % 16) + b₃ ≤ 6 →
      addFrame p frame =
        ⟨{ parsedMessages := p.parsedMessages ++
            [⟨256 * b₀ + b₁, (List.drop 4 [b₀, b₁, b₂, b₃, b₄, b₅, b₆, b₇, b₈, b₉]).take
              (256 * (b₂ % 16) + b₃)⟩],
           pendingMessages := p.pendingMessages }, none⟩) ∧
    (6 < 256 * (b₂ % 16) + b₃ →
      (addFrame p frame).thrown = none ∧
      (addFrame p frame).parser.parsedMessages = p.parsedMessages ∧
      (addFrame p frame).parser.pendingMessages.find (256 * b₀ + b₁) =
        some ⟨256 * (b₂ % 16) + b₃, 1, List.drop 4 [b₀, b₁, b₂, b₃, b₄, b₅, b₆, b₇, b₈, b₉]⟩ ∧
      (addFrame p frame).parser.pendingMessages.length = p.pendingMessages.length + 1 ∧
      ∀ k, k ≠ 256 * b₀ + b₁ →
        (addFrame p frame).parser.pendingMessages.find k = p.pendingMessages.find k) := by
  obtain ⟨h₀, h₁, _, h₃⟩ := bounds_of_decoded frame _ _ _ _ _ _ _ _ _ _ hdec
  have hc : p.pendingMessages.contains (256 * b₀ + b₁) = false := by
    simp [PendingMap.contains, hfree]
  rw [addFrame_of_decoded p frame _ _ _ _ _ _ _ _ _ _ hdec, htype]
  simp only [parseFirstFrame_ten p _ _ _ _ _ _ _ _ _ _ h₀ h₁ h₃, hc]
  constructor
  · intro h6
    simp [h6]
  · intro h6
    have h6' : ¬ 256 * (b₂ % 16) + b₃ ≤ 6 := by omega
    simp only [Bool.false_eq_true, if_false, h6']
    refine ⟨trivial, trivial, ?_, ?_, ?_⟩
    · simp [PendingMap.find_emplace, hfree]
    · exact PendingMap.length_emplace _ _ _ hfree
    · intro k hk
      simp [PendingMap.find_emplace, hk]

/-- The first frame `760101A618339484D31` of `testMultiFrameAssembly` declares 26 bytes:
no message, one session for `0x760`. -/
theorem first_frame_starts_session_witness :
    addFrame Parser.empty "760101A618339484D31" =
      ⟨{ parsedMessages := [],
         pendingMessages := [(0x760, ⟨26, 1, [0x61, 0x83, 0x39, 0x48, 0x4D, 0x31]⟩)] }, none⟩ ∧
    (addFrame Parser.empty "760101A618339484D31").parser.pendingMessages.length = 1 :=
  ⟨by decide,
   ((first_frame_starts_session Parser.empty "760101A618339484D31"
      0x7 0x60 0x10 0x1A 0x61 0x83 0x39 0x48 0x4D 0x31 rfl rfl rfl).2 (by decide)).2.2.2.1⟩

/-- C7: a first frame whose id already has an open session is rejected with
`DuplicateSession`, whatever size it declares, and the parser is left as it was. -/
theorem first_frame_duplicate_rejected (p : Parser) (frame : String)
    (b₀ b₁ b₂ b₃ b₄ b₅ b₆ b₇ b₈ b₉ : Nat) (session : PendingMessage)
    (hdec : stringToBuffer frame = .ok [b₀, b₁, b₂, b₃, b₄, b₅, b₆, b₇, b₈, b₉])
    (htype : b₂ / 16 = 1)
    (hopen : p.pendingMessages.find (256 * b₀ + b₁) = some session) :
    addFrame p frame = ⟨p, some .DuplicateSession⟩ := by
  obtain ⟨h₀, h₁, _, h₃⟩ := bounds_of_decoded frame _ _ _ _ _ _ _ _ _ _ hdec
  have hc : p.pendingMessages.contains (256 * b₀ + b₁) = true := by
    simp [PendingMap.contains, hopen]
  rw [addFrame_of_decoded p frame _ _ _ _ _ _ _ _ _ _ hdec, htype]
  simp [parseFirstFrame_ten p _ _ _ _ _ _ _ _ _ _ h₀ h₁ h₃, hc]

/-- With a session open for `0x760`, the first frame `7601003AABBCC000000`, which
declares 3 bytes, is rejected. -/
theorem first_frame_duplicate_rejected_witness :
    addFrame ⟨[], [(0x760, ⟨26, 1, [0x61, 0x83, 0x39, 0x48, 0x4D, 0x31]⟩)]⟩
        "7601003AABBCC000000" =
      ⟨⟨[], [(0x760, ⟨26, 1, [0x61, 0x83, 0x39, 0x48, 0x4D, 0x31]⟩)]⟩,
        some .DuplicateSession⟩ :=
  first_frame_duplicate_rejected
    ⟨[], [(0x760, ⟨26, 1, [0x61, 0x83, 0x39, 0x48, 0x4D, 0x31]⟩)]⟩ "7601003AABBCC000000"
    0x7 0x60 0x10 0x03 0xAA 0xBB 0xCC 0 0 0 ⟨26, 1, [0x61, 0x83, 0x39, 0x48, 0x4D, 0x31]⟩
    rfl rfl rfl

/-! ## Consecutive frames: the rejections -/

theorem addFrame_consecutive_unknown_id (p : Parser) (frame : String)
    (b₀ b₁ b₂ b₃ b₄ b₅ b₆ b₇ b₈ b₉ : Nat)
    (hdec : stringToBuffer frame = .ok [b₀, b₁, b₂, b₃, b₄, b₅, b₆, b₇, b₈, b₉])
    (htype : b₂ / 16 = 2)
    (hfree : p.pendingMessages.find (256 * b₀ + b₁) = none) :
    addFrame p frame = ⟨p, some .NoSuchSession⟩ := by
  obtain ⟨h₀, h₁, _, _⟩ := bounds_of_decoded frame _ _ _ _ _ _ _ _ _ _ hdec
  rw [addFrame_of_decoded p frame _ _ _ _ _ _ _ _ _ _ hdec, htype]
  simp [parseConsecutiveFrame_ten p _ _ _ _ _ _ _ _ _ _ h₀ h₁, hfree]

/-- C8: a consecutive frame whose id has no open session is rejected with
`NoSuchSession`, whatever its sequence number, and the parser is left as it was. -/
theorem consecutive_frame_without_session (p : Parser) (frame : String)
    (b₀ b₁ b₂ b₃ b₄ b₅ b₆ b₇ b₈ b₉ : Nat)
    (hdec : stringToBuffer frame = .ok [b₀, b₁, b₂, b₃, b₄, b₅, b₆, b₇, b₈, b₉])
    (htype : b₂ / 16 = 2)
    (hfree : p.pendingMessages.find (256 * b₀ + b₁) = none) :
    addFrame p frame = ⟨p, some .NoSuchSession⟩ :=
  addFrame_consecutive_unknown_id p frame _ _ _ _ _ _ _ _ _ _ hdec htype hfree

/-- The consecutive frame `7602141341101000265` on a fresh parser. -/
theorem consecutive_frame_without_session_witness :
    addFrame Parser.empty "7602141341101000265" = ⟨Parser.empty, some .NoSuchSession⟩ :=
  consecutive_frame_without_session Parser.empty "7602141341101000265"
    0x7 0x60 0x21 0x41 0x34 0x11 0x01 0x00 0x02 0x65 rfl rfl rfl

/-- C4: a consecutive frame for an id with an open session whose sequence number is not
the session's expected index is rejected with `OutOfOrderFrame`; the session table, that
session included, and the output are left as they were. -/
theorem consecutive_frame_out_of_order (p : Parser) (frame : String)
    (b₀ b₁ b₂ b₃ b₄ b₅ b₆ b₇ b₈ b₉ : Nat) (session : PendingMessage)
    (hdec : stringToBuffer frame = .ok [b₀, b₁, b₂, b₃, b₄, b₅, b₆, b₇, b₈, b₉])
    (htype : b₂ / 16 = 2)
    (hopen : p.pendingMessages.find (256 * b₀ + b₁) = some session)
    (hseq : b₂ % 16 ≠ session.expectedIndex) :
    addFrame p frame = ⟨p, some .OutOfOrderFrame⟩ := by
  obtain ⟨h₀, h₁, _, _⟩ := bounds_of_decoded frame _ _ _ _ _ _ _ _ _ _ hdec
  rw [addFrame_of_decoded p frame _ _ _ _ _ _ _ _ _ _ hdec, htype]
  simp [parseConsecutiveFrame_ten p _ _ _ _ _ _ _ _ _ _ h₀ h₁, hopen, hseq]

/-- The test `testOutOfOrderConsecutiveFrameThrows`: after the first frame for `0x760`,
the consecutive frame with sequence number 2 is rejected and the session stays. -/
theorem consecutive_frame_out_of_order_witness :
    addFrame ⟨[], [(0x760, ⟨26, 1, [0x61, 0x83, 0x39, 0x48, 0x4D, 0x31]⟩)]⟩
        "7602295616529201203" =
      ⟨⟨[], [(0x760, ⟨26, 1, [0x61, 0x83, 0x39, 0x48, 0x4D, 0x31]⟩)]⟩,
        some .OutOfOrderFrame⟩ :=
  consecutive_frame_out_of_order
    ⟨[], [(0x760, ⟨26, 1, [0x61, 0x83, 0x39, 0x48, 0x4D, 0x31]⟩)]⟩ "7602295616529201203"
    0x7 0x60 0x22 0x95 0x61 0x65 0x29 0x20 0x12 0x03
    ⟨26, 1, [0x61, 0x83, 0x39, 0x48, 0x4D, 0x31]⟩ rfl rfl rfl (by decide)

/-! ## Flow-control frames -/

/-- C5: a flow-control frame with status flag 2 and id `X` is accepted and appends no
message; afterwards the session table has no entry under `X + 0x20` and `X + 0x8` and is
as before under every other key, `X` included; with neither key present the parser is
left as it was; and a consecutive frame for `X + 0x20` or `X + 0x8` that comes next is
rejected with `NoSuchSession`. -/
theorem flow_control_abort_removes_sessions (p : Parser) (frame : String)
    (b₀ b₁ b₂ b₃ b₄ b₅ b₆ b₇ b₈ b₉ : Nat)
    (hdec : stringToBuffer frame = .ok [b₀, b₁, b₂, b₃, b₄, b₅, b₆, b₇, b₈, b₉])
    (htype : b₂ / 16 = 3) (hflag : b₂ % 16 = 2) :
    (addFrame p frame).thrown = none ∧
    (addFrame p frame).parser.parsedMessages = p.parsedMessages ∧
    (∀ k, (addFrame p frame).parser.pendingMessages.find k =
      if k = 256 * b₀ + b₁ + 0x20 ∨ k = 256 * b₀ + b₁ + 0x8 then none
      else p.pendingMessages.find k) ∧
    (addFrame p frame).parser.pendingMessages.find (256 * b₀ + b₁) =
      p.pendingMessages.find (256 * b₀ + b₁) ∧
    (p.pendingMessages.find (256 * b₀ + b₁ + 0x20) = none →
      p.pendingMessages.find (256 * b₀ + b₁ + 0x8) = none →
      addFrame p frame = ⟨p, none⟩) ∧
    (∀ (next : String) (c₀ c₁ c₂ c₃ c₄ c₅ c₆ c₇ c₈ c₉ : Nat),
      stringToBuffer next = .ok [c₀, c₁, c₂, c₃, c₄, c₅, c₆, c₇, c₈, c₉] →
      c₂ / 16 = 2 →
      (256 * c₀ + c₁ = 256 * b₀ + b₁ + 0x20 ∨ 256 * c₀ + c₁ = 256 * b₀ + b₁ + 0x8) →
      addFrame (addFrame p frame).parser next =
        ⟨(addFrame p frame).parser, some .NoSuchSession⟩) := by
  obtain ⟨h₀, h₁, _, _⟩ := bounds_of_decoded frame _ _ _ _ _ _ _ _ _ _ hdec
  have hfind : ∀ k, (addFrame p frame).parser.pendingMessages.find k =
      if k = 256 * b₀ + b₁ + 0x20 ∨ k = 256 * b₀ + b₁ + 0x8 then none
      else p.pendingMessages.find k := by
    intro k
    rw [addFrame_of_decoded p frame _ _ _ _ _ _ _ _ _ _ hdec, htype]
    simp only [parseFlowControlFrame_ten p _ _ _ _ _ _ _ _ _ _ h₀ h₁, hflag, if_true,
      PendingMap.find_erase]
    by_cases h8 : k = 256 * b₀ + b₁ + 0x8
    · simp [h8]
    · by_cases h20 : k = 256 * b₀ + b₁ + 0x20
      · simp [h20]
      · simp [h8, h20]
  refine ⟨?_, ?_, hfind, ?_, ?_, ?_⟩
  · rw [addFrame_of_decoded p frame _ _ _ _ _ _ _ _ _ _ hdec, htype]
    simp [parseFlowControlFrame_ten p _ _ _ _ _ _ _ _ _ _ h₀ h₁, hflag]
  · rw [addFrame_of_decoded p frame _ _ _ _ _ _ _ _ _ _ hdec, htype]
    simp [parseFlowControlFrame_ten p _ _ _ _ _ _ _ _ _ _ h₀ h₁, hflag]
  · rw [hfind]
    have h1 : ¬ (256 * b₀ + b₁ = 256 * b₀ + b₁ + 0x20 ∨ 256 * b₀ + b₁ = 256 * b₀ + b₁ + 0x8) := by
      omega
    simp only [h1, if_false]
  · intro hn20 hn8
    rw [addFrame_of_decoded p frame _ _ _ _ _ _ _ _ _ _ hdec, htype]
    simp only [parseFlowControlFrame_ten p _ _ _ _ _ _ _ _ _ _ h₀ h₁, hflag, if_true]
    rw [PendingMap.erase_of_find_none _ _ hn20, PendingMap.erase_of_find_none _ _ hn8]
  · intro next c₀ c₁ c₂ c₃ c₄ c₅ c₆ c₇ c₈ c₉ hnext hctype hid
    apply addFrame_consecutive_unknown_id _ next _ _ _ _ _ _ _ _ _ _ hnext hctype
    rw [hfind]
    simp [hid]

/-- The test `testFlowControlAbort`: after the first frame for `0x760`, the abort frame
`7403200000000000000` removes the session, and the consecutive frame for `0x760` that
follows is rejected with `NoSuchSession`. -/
theorem flow_control_abort_removes_sessions_witness :
    (addFrame (addFrame Parser.empty "760101A618339484D31").parser
        "7403200000000000000").parser.pendingMessages = [] ∧
    addFrame (addFrame (addFrame Parser.empty "760101A618339484D31").parser
        "7403200000000000000").parser "7602141341101000265" =
      ⟨(addFrame (addFrame Parser.empty "760101A618339484D31").parser
        "7403200000000000000").parser, some .NoSuchSession⟩ :=
  ⟨by decide,
   (flow_control_abort_removes_sessions (addFrame Parser.empty "760101A618339484D31").parser
      "7403200000000000000" 0x7 0x40 0x32 0 0 0 0 0 0 0 rfl rfl rfl).2.2.2.2.2
      "7602141341101000265" 0x7 0x60 0x21 0x41 0x34 0x11 0x01 0x00 0x02 0x65 rfl rfl
      (Or.inl (by decide))⟩

/-! ## Assembly of a multi-frame message -/

theorem isConsecutiveFrame_decoded (canId seq : Nat) (frame : String)
    (h : isConsecutiveFrame canId seq frame = true) :
    ∃ c₀ c₁ c₂ c₃ c₄ c₅ c₆ c₇ c₈ c₉ : Nat,
      stringToBuffer frame = .ok [c₀, c₁, c₂, c₃, c₄, c₅, c₆, c₇, c₈, c₉] ∧
      256 * c₀ + c₁ = canId ∧ c₂ / 16 = 2 ∧ c₂ % 16 = seq := by
  unfold isConsecutiveFrame at h
  split at h
  · next c₀ c₁ c₂ c₃ c₄ c₅ c₆ c₇ c₈ c₉ heq =>
    simp only [Bool.and_eq_true, beq_iff_eq] at h
    exact ⟨c₀, c₁, c₂, c₃, c₄, c₅, c₆, c₇, c₈, c₉, heq, h.1.1, h.1.2, h.2⟩
  · simp at h

theorem addFrame_consecutive_expected (p : Parser) (frame : String)
    (c₀ c₁ c₂ c₃ c₄ c₅ c₆ c₇ c₈ c₉ : Nat) (s : PendingMessage)
    (hdec : stringToBuffer frame = .ok [c₀, c₁, c₂, c₃, c₄, c₅, c₆, c₇, c₈, c₉])
    (htype : c₂ / 16 = 2)
    (hopen : p.pendingMessages.find (256 * c₀ + c₁) = some s)
    (hseq : c₂ % 16 = s.expectedIndex)
    (hle : s.payload.length ≤ s.expectedSize) (hsize : s.expectedSize < 2 ^ 64) :
    addFrame p frame =
      if s.payload.length + min (s.expectedSize - s.payload.length) 7 = s.expectedSize then
        ⟨{ parsedMessages := p.parsedMessages ++ [⟨256 * c₀ + c₁, s.payload ++
              [c₃, c₄, c₅, c₆, c₇, c₈, c₉].take (min (s.expectedSize - s.payload.length) 7)⟩],
           pendingMessages := p.pendingMessages.erase (256 * c₀ + c₁) }, none⟩
      else
        ⟨{ parsedMessages := p.parsedMessages,
           pendingMessages := p.pendingMessages.assign (256 * c₀ + c₁)
            ⟨s.expectedSize, (s.expectedIndex + 1) % 16, s.payload ++
              [c₃, c₄, c₅, c₆, c₇, c₈, c₉].take (min (s.expectedSize - s.payload.length) 7)⟩ },
         none⟩ := by
  obtain ⟨h₀, h₁, _, _⟩ := bounds_of_decoded frame _ _ _ _ _ _ _ _ _ _ hdec
  have hmod : (s.expectedSize + 2 ^ 64 - s.payload.length) % 2 ^ 64 =
      s.expectedSize - s.payload.length := by omega
  rw [addFrame_of_decoded p frame _ _ _ _ _ _ _ _ _ _ hdec, htype]
  simp only [parseConsecutiveFrame_ten p _ _ _ _ _ _ _ _ _ _ h₀ h₁, hopen, hseq, hmod,
    ne_eq, not_true_eq_false, if_false, List.length_append, List.length_take,
    List.length_cons, List.length_nil]
  have hmin : min (min (s.expectedSize - s.payload.length) 7) (0 + 1 + 1 + 1 + 1 + 1 + 1 + 1) =
      min (s.expectedSize - s.payload.length) 7 := by omega
  rw [hmin]

theorem frameBytes_of_decoded (frame : String) (buffer : CanBuffer)
    (hdec : stringToBuffer frame = .ok buffer) : frameBytes frame = buffer := by
  simp [frameBytes, hdec]

theorem addFrames_cons_ok (p q : Parser) (frame : String) (rest : List String)
    (h : addFrame p frame = ⟨q, none⟩) :
    addFrames p (frame :: rest) = addFrames q rest := by
  simp [addFrames, h]

theorem addFrames_consecutive_run (canId : Nat) (run : List String) :
    ∀ (p : Parser) (s : PendingMessage) (k : Nat),
      p.pendingMessages.find canId = some s →
      s.expectedIndex = k % 16 →
      s.payload.length < s.expectedSize →
      s.expectedSize < 2 ^ 64 →
      run.length = (s.expectedSize - s.payload.length + 6) / 7 →
      consecutiveRun canId k run = true →
      (addFrames p run).thrown = none ∧
      (addFrames p run).parser.parsedMessages = p.parsedMessages ++
        [⟨canId, (s.payload ++ runPayload run).take s.expectedSize⟩] ∧
      (addFrames p run).parser.pendingMessages.find canId = none ∧
      ∀ j, j < run.length →
        (addFrames p (run.take j)).thrown = none ∧
        (addFrames p (run.take j)).parser.parsedMessages = p.parsedMessages := by
  induction run with
  | nil =>
    intro p s k _ _ hlt _ hlen _
    simp only [List.length_nil] at hlen
    omega
  | cons frame rest ih =>
    intro p s k hopen hidx hlt hsize hlen hrun
    simp only [consecutiveRun, Bool.and_eq_true] at hrun
    obtain ⟨c₀, c₁, c₂, c₃, c₄, c₅, c₆, c₇, c₈, c₉, hdec, hid, htype, hseq⟩ :=
      isConsecutiveFrame_decoded canId (k % 16) frame hrun.1
    subst hid
    have hstep := addFrame_consecutive_expected p frame _ _ _ _ _ _ _ _ _ _ s hdec htype hopen
      (hseq.trans hidx.symm) (Nat.le_of_lt hlt) hsize
    have hbytes : runPayload (frame :: rest) = [c₃, c₄, c₅, c₆, c₇, c₈, c₉] ++ runPayload rest := by
      simp [runPayload, frameBytes_of_decoded frame _ hdec]
    simp only [List.length_cons] at hlen
    by_cases hlast : s.expectedSize - s.payload.length ≤ 7
    · -- the frame completes the message
      have hrest : rest = [] := by
        apply List.eq_nil_of_length_eq_zero
        omega
      subst hrest
      have hcond : s.payload.length + min (s.expectedSize - s.payload.length) 7 =
          s.expectedSize := by omega
      rw [if_pos hcond] at hstep
      have hmin : min (s.expectedSize - s.payload.length) 7 =
          s.expectedSize - s.payload.length := by omega
      have hpayload : (s.payload ++ runPayload [frame]).take s.expectedSize =
          s.payload ++ [c₃, c₄, c₅, c₆, c₇, c₈, c₉].take
            (min (s.expectedSize - s.payload.length) 7) := by
        rw [hbytes, hmin]
        simp [runPayload, List.take_append_eq_append_take, List.take_of_length_le
          (Nat.le_of_lt hlt)]
      refine ⟨?_, ?_, ?_, ?_⟩
      · simp [addFrames, hstep]
      · simp only [addFrames, hstep, hpayload]
      · simp [addFrames, hstep, PendingMap.find_erase]
      · intro j hj
        have hj0 : j = 0 := by simpa using hj
        subst hj0
        simp [addFrames]
    · -- the session stays open
      have hcond : ¬ s.payload.length + min (s.expectedSize - s.payload.length) 7 =
          s.expectedSize := by omega
      rw [if_neg hcond] at hstep
      have hmin : min (s.expectedSize - s.payload.length) 7 = 7 := by omega
      rw [hmin] at hstep
      simp only [List.take, List.take_nil] at hstep
      have hopen' : (PendingMap.assign p.pendingMessages (256 * c₀ + c₁)
          ⟨s.expectedSize, (s.expectedIndex + 1) % 16,
            s.payload ++ [c₃, c₄, c₅, c₆, c₇, c₈, c₉]⟩).find (256 * c₀ + c₁) =
          some ⟨s.expectedSize, (s.expectedIndex + 1) % 16,
            s.payload ++ [c₃, c₄, c₅, c₆, c₇, c₈, c₉]⟩ := by
        simp [PendingMap.find_assign, hopen]
      obtain ⟨h1, h2, h3, h4⟩ := ih
        ⟨p.parsedMessages, PendingMap.assign p.pendingMessages (256 * c₀ + c₁)
          ⟨s.expectedSize, (s.expectedIndex + 1) % 16,
            s.payload ++ [c₃, c₄, c₅, c₆, c₇, c₈, c₉]⟩⟩
        ⟨s.expectedSize, (s.expectedIndex + 1) % 16, s.payload ++ [c₃, c₄, c₅, c₆, c₇, c₈, c₉]⟩
        (k + 1) hopen'
        (by simp only [hidx]; omega) (by simp; omega) hsize (by simp; omega) hrun.2
      rw [addFrames_cons_ok _ _ _ _ hstep]
      refine ⟨h1, ?_, h3, ?_⟩
      · rw [h2, hbytes]
        simp
      · intro j hj
        cases j with
        | zero => simp [addFrames]
        | succ j =>
          rw [List.take_succ_cons, addFrames_cons_ok _ _ _ _ hstep]
          exact h4 j (by simpa using hj)

theorem runPayload_length (canId : Nat) (run : List String) :
    ∀ k, consecutiveRun canId k run = true → (runPayload run).length = 7 * run.length := by
  induction run with
  | nil => intro _ _; rfl
  | cons frame rest ih =>
    intro k hrun
    simp only [consecutiveRun, Bool.and_eq_true] at hrun
    obtain ⟨c₀, c₁, c₂, c₃, c₄, c₅, c₆, c₇, c₈, c₉, hdec, _, _, _⟩ :=
      isConsecutiveFrame_decoded canId (k % 16) frame hrun.1
    simp [runPayload, frameBytes_of_decoded frame _ hdec, ih (k + 1) hrun.2]
    omega

/-- C1: with no session open for an id, a first frame for it declaring `N > 6` bytes
followed by `ceil((N - 6) / 7)` consecutive frames for it with sequence numbers 1, 2, ...
(mod 16) is accepted frame by frame; no message is appended before the last frame, and
after it the output has gained exactly one message, with that id and, as payload, the
first `N` bytes of the first frame's `bytes[4..10)` followed by every consecutive
frame's `bytes[3..10)`; the payload has length `N` and no session is left for the id. -/
theorem multi_frame_assembly (p : Parser) (first : String) (run : List String)
    (b₀ b₁ b₂ b₃ b₄ b₅ b₆ b₇ b₈ b₉ : Nat)
    (hdec : stringToBuffer first = .ok [b₀, b₁, b₂, b₃, b₄, b₅, b₆, b₇, b₈, b₉])
    (htype : b₂ / 16 = 1)
    (hfree : p.pendingMessages.find (256 * b₀ + b₁) = none)
    (hN : 6 < 256 * (b₂ % 16) + b₃)
    (hcount : run.length = (256 * (b₂ % 16) + b₃ - 6 + 6) / 7)
    (hrun : consecutiveRun (256 * b₀ + b₁) 1 run = true) :
    (addFrames p (first :: run)).thrown = none ∧
    (addFrames p (first :: run)).parser.parsedMessages = p.parsedMessages ++
      [⟨256 * b₀ + b₁,
        ((frameBytes first).drop 4 ++ runPayload run).take (256 * (b₂ % 16) + b₃)⟩] ∧
    (((frameBytes first).drop 4 ++ runPayload run).take (256 * (b₂ % 16) + b₃)).length =
      256 * (b₂ % 16) + b₃ ∧
    (addFrames p (first :: run)).parser.pendingMessages.find (256 * b₀ + b₁) = none ∧
    ∀ j, j < run.length →
      (addFrames p (first :: run.take j)).thrown = none ∧
      (addFrames p (first :: run.take j)).parser.parsedMessages = p.parsedMessages := by
  obtain ⟨h₀, h₁, _, h₃⟩ := bounds_of_decoded first _ _ _ _ _ _ _ _ _ _ hdec
  have hc : p.pendingMessages.contains (256 * b₀ + b₁) = false := by
    simp [PendingMap.contains, hfree]
  have h6 : ¬ 256 * (b₂ % 16) + b₃ ≤ 6 := by omega
  have hstep : addFrame p first =
      ⟨⟨p.parsedMessages, p.pendingMessages.emplace (256 * b₀ + b₁)
        ⟨256 * (b₂ % 16) + b₃, 1, [b₄, b₅, b₆, b₇, b₈, b₉]⟩⟩, none⟩ := by
    rw [addFrame_of_decoded p first _ _ _ _ _ _ _ _ _ _ hdec, htype]
    simp [parseFirstFrame_ten p _ _ _ _ _ _ _ _ _ _ h₀ h₁ h₃, hc, h6]
  have hopen : (p.pendingMessages.emplace (256 * b₀ + b₁)
      ⟨256 * (b₂ % 16) + b₃, 1, [b₄, b₅, b₆, b₇, b₈, b₉]⟩).find (256 * b₀ + b₁) =
      some ⟨256 * (b₂ % 16) + b₃, 1, [b₄, b₅, b₆, b₇, b₈, b₉]⟩ := by
    simp [PendingMap.find_emplace, hfree]
  obtain ⟨h1, h2, h3, h4⟩ := addFrames_consecutive_run (256 * b₀ + b₁) run
    ⟨p.parsedMessages, p.pendingMessages.emplace (256 * b₀ + b₁)
      ⟨256 * (b₂ % 16) + b₃, 1, [b₄, b₅, b₆, b₇, b₈, b₉]⟩⟩
    ⟨256 * (b₂ % 16) + b₃, 1, [b₄, b₅, b₆, b₇, b₈, b₉]⟩ 1 hopen rfl
    (by simp; omega) (by simp only; omega) (by simp; omega) hrun
  have hfirst : (frameBytes first).drop 4 = [b₄, b₅, b₆, b₇, b₈, b₉] := by
    simp [frameBytes_of_decoded first _ hdec]
  have hlen := runPayload_length (256 * b₀ + b₁) run 1 hrun
  rw [hfirst]
  refine ⟨?_, ?_, ?_, ?_, ?_⟩
  · rw [addFrames_cons_ok _ _ _ _ hstep]; exact h1
  · rw [addFrames_cons_ok _ _ _ _ hstep]; exact h2
  · simp [hlen]
    omega
  · rw [addFrames_cons_ok _ _ _ _ hstep]; exact h3
  · intro j hj
    rw [addFrames_cons_ok _ _ _ _ hstep]
    exact h4 j hj

/-- The test `testMultiFrameAssembly`: the first frame `760101A618339484D31` and its three
consecutive frames give one message with id `0x760` and 26 payload bytes. -/
theorem multi_frame_assembly_witness :
    (addFrames Parser.empty ["760101A618339484D31", "7602141341101000265",
        "7602295616529201203", "76023000000000080AA"]).parser.parsedMessages =
      [⟨0x760, [0x61, 0x83, 0x39, 0x48, 0x4D, 0x31, 0x41, 0x34, 0x11, 0x01, 0x00, 0x02, 0x65,
        0x95, 0x61, 0x65, 0x29, 0x20, 0x12, 0x03, 0x00, 0x00, 0x00, 0x00, 0x00, 0x80]⟩] :=
  (multi_frame_assembly Parser.empty "760101A618339484D31"
    ["7602141341101000265", "7602295616529201203", "76023000000000080AA"]
    0x7 0x60 0x10 0x1A 0x61 0x83 0x39 0x48 0x4D 0x31 rfl rfl rfl (by decide) rfl rfl).2.1

/-! ## Characters that are not hexadecimal digits -/

/-- C10, at the input `7400210C0000000000G`: the string has 19 characters, its last
character `G` is no hexadecimal digit, and yet `addFrame` throws nothing and appends the
message `0x740: 10 C0`. The call `from_chars` on the two characters `0G` reads the digit
`0`, stops at `G` and reports success, and `stringToBuffer` tests nothing but the error
code. -/
theorem addFrame_accepts_non_hex_character :
    "7400210C0000000000G".length = 19 ∧
    'G' ∈ "7400210C0000000000G".data ∧
    hexDigit 'G' = none ∧
    fromChars ['0', 'G'] = some 0 ∧
    stringToBuffer "7400210C0000000000G" = .ok [0x7, 0x40, 0x02, 0x10, 0xC0, 0, 0, 0, 0, 0] ∧
    addFrame Parser.empty "7400210C0000000000G" =
      ⟨{ parsedMessages := [⟨0x740, [0x10, 0xC0]⟩], pendingMessages := [] }, none⟩ := by
  refine ⟨by decide, by decide, by decide, by decide, rfl, by decide⟩

/-! ## Sessions of different ids do not interact -/

theorem isDataFrame_decoded (frame : String) (h : isDataFrame frame = true) :
    ∃ c₀ c₁ c₂ c₃ c₄ c₅ c₆ c₇ c₈ c₉ : Nat,
      stringToBuffer frame = .ok [c₀, c₁, c₂, c₃, c₄, c₅, c₆, c₇, c₈, c₉] ∧ c₂ / 16 ≠ 3 := by
  unfold isDataFrame at h
  split at h
  · next c₀ c₁ c₂ c₃ c₄ c₅ c₆ c₇ c₈ c₉ heq =>
    exact ⟨c₀, c₁, c₂, c₃, c₄, c₅, c₆, c₇, c₈, c₉, heq, by simpa using h⟩
  · simp at h

theorem carriesId_of_decoded (canId : Nat) (frame : String)
    (c₀ c₁ c₂ c₃ c₄ c₅ c₆ c₇ c₈ c₉ : Nat)
    (hdec : stringToBuffer frame = .ok [c₀, c₁, c₂, c₃, c₄, c₅, c₆, c₇, c₈, c₉]) :
    carriesId canId frame = (256 * c₀ + c₁ == canId) := by
  simp only [carriesId, hdec]

theorem messagesOf_append (canId : Nat) (l₁ l₂ : List CanMessage) :
    messagesOf canId (l₁ ++ l₂) = messagesOf canId l₁ ++ messagesOf canId l₂ := by
  simp [messagesOf]

theorem messagesOf_single_same (canId : Nat) (payload : CanBuffer) :
    messagesOf canId [⟨canId, payload⟩] = [⟨canId, payload⟩] := by
  simp [messagesOf]

theorem messagesOf_single_other (canId other : Nat) (payload : CanBuffer)
    (h : other ≠ canId) : messagesOf canId [⟨other, payload⟩] = [] := by
  simp [messagesOf, h]

theorem addFrame_same_id (canId : Nat) (p q : Parser) (frame : String)
    (hdata : isDataFrame frame = true) (hid : carriesId canId frame = true)
    (hagree : agreeOn canId p q) :
    (addFrame q frame).thrown = (addFrame p frame).thrown ∧
      ((addFrame p frame).thrown = none →
        agreeOn canId (addFrame p frame).parser (addFrame q frame).parser) := by
  obtain ⟨c₀, c₁, c₂, c₃, c₄, c₅, c₆, c₇, c₈, c₉, hdec, htype⟩ := isDataFrame_decoded frame hdata
  obtain ⟨h₀, h₁, _, h₃⟩ := bounds_of_decoded frame _ _ _ _ _ _ _ _ _ _ hdec
  rw [carriesId_of_decoded canId frame _ _ _ _ _ _ _ _ _ _ hdec] at hid
  have hid' : 256 * c₀ + c₁ = canId := by simpa using hid
  obtain ⟨hmsgs, hfind⟩ := hagree
  rw [addFrame_of_decoded p frame _ _ _ _ _ _ _ _ _ _ hdec,
    addFrame_of_decoded q frame _ _ _ _ _ _ _ _ _ _ hdec]
  match hk : c₂ / 16 with
  | 0 =>
    simp only [parseSingleFrame_ten _ _ _ _ _ _ _ _ _ _ _ h₀ h₁, hid']
    by_cases h : c₂ % 16 > 7
    · simp [h]
    · simp [h, agreeOn, hmsgs, hfind, messagesOf_append, messagesOf_single_same]
  | 1 =>
    have hc : q.pendingMessages.contains canId = p.pendingMessages.contains canId := by
      simp [PendingMap.contains, hfind]
    simp only [parseFirstFrame_ten _ _ _ _ _ _ _ _ _ _ _ h₀ h₁ h₃, hid', hc]
    by_cases h : p.pendingMessages.contains canId = true
    · simp [h]
    · by_cases h6 : 256 * (c₂ % 16) + c₃ ≤ 6
      · simp [h, h6, agreeOn, hmsgs, hfind, messagesOf_append, messagesOf_single_same]
      · simp [h, h6, agreeOn, hmsgs, hfind, PendingMap.find_emplace]
  | 2 =>
    simp only [parseConsecutiveFrame_ten _ _ _ _ _ _ _ _ _ _ _ h₀ h₁, hid', hfind]
    cases hs : p.pendingMessages.find canId with
    | none => simp
    | some s =>
      by_cases hi : c₂ % 16 = s.expectedIndex
      · simp only [hi, ne_eq, not_true_eq_false, if_false]
        split_ifs
        · simp [agreeOn, hmsgs, messagesOf_append, messagesOf_single_same,
            PendingMap.find_erase]
        · simp [agreeOn, hmsgs, PendingMap.find_assign, hfind, hs]
      · simp [hi]
  | 3 => exact absurd hk htype
  | n + 4 => simp [agreeOn, hmsgs, hfind]

theorem addFrame_other_id (canId : Nat) (p q : Parser) (frame : String)
    (hdata : isDataFrame frame = true) (hid : carriesId canId frame = false)
    (hagree : agreeOn canId p q) (hok : (addFrame p frame).thrown = none) :
    agreeOn canId (addFrame p frame).parser q := by
  obtain ⟨c₀, c₁, c₂, c₃, c₄, c₅, c₆, c₇, c₈, c₉, hdec, htype⟩ := isDataFrame_decoded frame hdata
  obtain ⟨h₀, h₁, _, h₃⟩ := bounds_of_decoded frame _ _ _ _ _ _ _ _ _ _ hdec
  rw [carriesId_of_decoded canId frame _ _ _ _ _ _ _ _ _ _ hdec] at hid
  have hid' : 256 * c₀ + c₁ ≠ canId := by simpa using hid
  have hid'' : canId ≠ 256 * c₀ + c₁ := fun h => hid' h.symm
  obtain ⟨hmsgs, hfind⟩ := hagree
  rw [addFrame_of_decoded p frame _ _ _ _ _ _ _ _ _ _ hdec] at hok ⊢
  match hk : c₂ / 16 with
  | 0 =>
    simp only [hk, parseSingleFrame_ten _ _ _ _ _ _ _ _ _ _ _ h₀ h₁] at hok ⊢
    by_cases h : c₂ % 16 > 7
    · simp [h] at hok
    · simp [h, agreeOn, hmsgs, hfind, messagesOf_append, messagesOf_single_other _ _ _ hid']
  | 1 =>
    simp only [hk, parseFirstFrame_ten _ _ _ _ _ _ _ _ _ _ _ h₀ h₁ h₃] at hok ⊢
    by_cases h : p.pendingMessages.contains (256 * c₀ + c₁) = true
    · simp [h] at hok
    · by_cases h6 : 256 * (c₂ % 16) + c₃ ≤ 6
      · simp [h, h6, agreeOn, hmsgs, hfind, messagesOf_append,
          messagesOf_single_other _ _ _ hid']
      · simp [h, h6, agreeOn, hmsgs, hfind, PendingMap.find_emplace, hid'']
  | 2 =>
    simp only [hk, parseConsecutiveFrame_ten _ _ _ _ _ _ _ _ _ _ _ h₀ h₁] at hok ⊢
    cases hs : p.pendingMessages.find (256 * c₀ + c₁) with
    | none => simp [hs] at hok
    | some s =>
      by_cases hi : c₂ % 16 = s.expectedIndex
      · simp only [hi, ne_eq, not_true_eq_false, if_false]
        split_ifs
        · simp [agreeOn, hmsgs, hfind, messagesOf_append, messagesOf_single_other _ _ _ hid',
            PendingMap.find_erase, hid'']
        · simp [agreeOn, hmsgs, hfind, PendingMap.find_assign, hid'']
      · simp [hs, hi] at hok
  | 3 => exact absurd hk htype
  | n + 4 => simp [agreeOn, hmsgs, hfind]

theorem addFrames_cons_thrown (p q : Parser) (e : ParseError) (frame : String)
    (rest : List String) (h : addFrame p frame = ⟨q, some e⟩) :
    addFrames p (frame :: rest) = ⟨q, some e⟩ := by
  simp [addFrames, h]

theorem addFrame_eta (p : Parser) (frame : String) :
    addFrame p frame = ⟨(addFrame p frame).parser, (addFrame p frame).thrown⟩ := rfl

theorem addFrames_projection_ok (canId : Nat) (frames : List String) :
    ∀ p q : Parser, frames.all isDataFrame = true → agreeOn canId p q →
      (addFrames p frames).thrown = none →
      (addFrames q (frames.filter (carriesId canId))).thrown = none ∧
        agreeOn canId (addFrames p frames).parser
          (addFrames q (frames.filter (carriesId canId))).parser := by
  induction frames with
  | nil =>
    intro p q _ hagree _
    exact ⟨rfl, hagree⟩
  | cons frame rest ih =>
    intro p q hall hagree hok
    simp only [List.all_cons, Bool.and_eq_true] at hall
    cases hthrow : (addFrame p frame).thrown with
    | some e =>
      have hstep := addFrame_eta p frame
      rw [hthrow] at hstep
      rw [addFrames_cons_thrown _ _ _ _ _ hstep] at hok
      simp at hok
    | none =>
      have hstep := addFrame_eta p frame
      rw [hthrow] at hstep
      rw [addFrames_cons_ok _ _ _ _ hstep] at hok ⊢
      cases hid : carriesId canId frame with
      | true =>
        obtain ⟨hsame, hnext⟩ := addFrame_same_id canId p q frame hall.1 hid hagree
        have hstepq := addFrame_eta q frame
        rw [hsame, hthrow] at hstepq
        rw [List.filter_cons_of_pos hid, addFrames_cons_ok _ _ _ _ hstepq]
        exact ih _ _ hall.2 (hnext hthrow) hok
      | false =>
        have hnext := addFrame_other_id canId p q frame hall.1 hid hagree hthrow
        rw [List.filter_cons_of_neg (by simp [hid])]
        exact ih _ _ hall.2 hnext hok

theorem addFrames_projection_thrown (frames : List String) :
    ∀ p : Parser, frames.all isDataFrame = true → (addFrames p frames).thrown ≠ none →
      ∃ canId, ∀ q : Parser, agreeOn canId p q →
        (addFrames q (frames.filter (carriesId canId))).thrown =
          (addFrames p frames).thrown := by
  induction frames with
  | nil =>
    intro p _ h
    simp [addFrames] at h
  | cons frame rest ih =>
    intro p hall hthrown
    simp only [List.all_cons, Bool.and_eq_true] at hall
    obtain ⟨c₀, c₁, c₂, c₃, c₄, c₅, c₆, c₇, c₈, c₉, hdec, _⟩ := isDataFrame_decoded frame hall.1
    cases hthrow : (addFrame p frame).thrown with
    | some e =>
      have hstep := addFrame_eta p frame
      rw [hthrow] at hstep
      refine ⟨256 * c₀ + c₁, fun q hagree => ?_⟩
      have hid : carriesId (256 * c₀ + c₁) frame = true := by
        simp [carriesId_of_decoded _ frame _ _ _ _ _ _ _ _ _ _ hdec]
      obtain ⟨hsame, _⟩ := addFrame_same_id _ p q frame hall.1 hid hagree
      have hstepq := addFrame_eta q frame
      rw [hsame, hthrow] at hstepq
      rw [List.filter_cons_of_pos hid, addFrames_cons_thrown _ _ _ _ _ hstepq,
        addFrames_cons_thrown _ _ _ _ _ hstep]
    | none =>
      have hstep := addFrame_eta p frame
      rw [hthrow] at hstep
      rw [addFrames_cons_ok _ _ _ _ hstep] at hthrown ⊢
      obtain ⟨canId, hrest⟩ := ih _ hall.2 hthrown
      refine ⟨canId, fun q hagree => ?_⟩
      cases hid : carriesId canId frame with
      | true =>
        obtain ⟨hsame, hnext⟩ := addFrame_same_id canId p q frame hall.1 hid hagree
        have hstepq := addFrame_eta q frame
        rw [hsame, hthrow] at hstepq
        rw [List.filter_cons_of_pos hid, addFrames_cons_ok _ _ _ _ hstepq]
        exact hrest _ (hnext hthrow)
      | false =>
        have hnext := addFrame_other_id canId p q frame hall.1 hid hagree hthrow
        rw [List.filter_cons_of_neg (by simp [hid])]
        exact hrest _ hnext

theorem parseCanFrames_ok_iff (frames : List String) (messages : List CanMessage) :
    parseCanFrames frames = .ok messages ↔
      (addFrames Parser.empty frames).thrown = none ∧
        (addFrames Parser.empty frames).parser.parsedMessages = messages := by
  unfold parseCanFrames
  split
  · next q heq => simp [heq]
  · next q e heq => simp [heq]

theorem agreeOn_empty (canId : Nat) : agreeOn canId Parser.empty Parser.empty :=
  ⟨rfl, rfl⟩

/-- C6: on a list of valid frames without flow-control frames, `parseCanFrames` succeeds
exactly when it succeeds, for every id, on the sublist of the frames that carry the id;
and when it succeeds, for every id the result on that sublist is the subsequence of the
messages of the whole result that have the id. -/
theorem interleaved_sessions_independent (frames : List String)
    (hvalid : frames.all isDataFrame = true) :
    ((∃ messages, parseCanFrames frames = .ok messages) ↔
      ∀ canId, ∃ messages,
        parseCanFrames (frames.filter (carriesId canId)) = .ok messages) ∧
    ∀ messages, parseCanFrames frames = .ok messages →
      ∀ canId, parseCanFrames (frames.filter (carriesId canId)) =
        .ok (messagesOf canId messages) := by
  have hforward : ∀ messages, parseCanFrames frames = .ok messages →
      ∀ canId, parseCanFrames (frames.filter (carriesId canId)) =
        .ok (messagesOf canId messages) := by
    intro messages hok canId
    obtain ⟨hnone, hmsgs⟩ := (parseCanFrames_ok_iff frames messages).mp hok
    obtain ⟨h1, h2, _⟩ := addFrames_projection_ok canId frames Parser.empty Parser.empty
      hvalid (agreeOn_empty canId) hnone
    exact (parseCanFrames_ok_iff _ _).mpr ⟨h1, by rw [h2, hmsgs]⟩
  refine ⟨⟨?_, ?_⟩, hforward⟩
  · rintro ⟨messages, hok⟩ canId
    exact ⟨_, hforward messages hok canId⟩
  · intro hall
    by_contra hfail
    have hthrown : (addFrames Parser.empty frames).thrown ≠ none := by
      intro hnone
      exact hfail ⟨_, (parseCanFrames_ok_iff frames _).mpr ⟨hnone, rfl⟩⟩
    obtain ⟨canId, hsub⟩ := addFrames_projection_thrown frames Parser.empty hvalid hthrown
    obtain ⟨messages, hok⟩ := hall canId
    have hnone := ((parseCanFrames_ok_iff _ messages).mp hok).1
    rw [hsub Parser.empty (agreeOn_empty canId)] at hnone
    exact hthrown hnone

/-- The test `testInterleavedMessages`: the interleaved frames of `0x7E8` and `0x760` give
the message of `0x760` (26 bytes) and then the message of `0x7E8` (21 bytes), and the
frames of `0x760` alone give the first of them. -/
theorem interleaved_sessions_independent_witness :
    parseCanFrames ["7E810156181314E3441", "760101A618339484D31", "7E8214C33415039464E",
        "7602141341101000265", "7602295616529201203", "76023000000000080AA",
        "7E82239303031363300", "7E82300AAAAAAAAAAAA"] =
      .ok [⟨0x760, [0x61, 0x83, 0x39, 0x48, 0x4D, 0x31, 0x41, 0x34, 0x11, 0x01, 0x00, 0x02,
              0x65, 0x95, 0x61, 0x65, 0x29, 0x20, 0x12, 0x03, 0x00, 0x00, 0x00, 0x00, 0x00,
              0x80]⟩,
           ⟨0x7E8, [0x61, 0x81, 0x31, 0x4E, 0x34, 0x41, 0x4C, 0x33, 0x41, 0x50, 0x39, 0x46,
              0x4E, 0x39, 0x30, 0x30, 0x31, 0x36, 0x33, 0x00, 0x00]⟩] ∧
    parseCanFrames ["760101A618339484D31", "7602141341101000265", "7602295616529201203",
        "76023000000000080AA"] =
      .ok [⟨0x760, [0x61, 0x83, 0x39, 0x48, 0x4D, 0x31, 0x41, 0x34, 0x11, 0x01, 0x00, 0x02,
              0x65, 0x95, 0x61, 0x65, 0x29, 0x20, 0x12, 0x03, 0x00, 0x00, 0x00, 0x00, 0x00,
              0x80]⟩] :=
  ⟨rfl,
   (interleaved_sessions_independent ["7E810156181314E3441", "760101A618339484D31",
      "7E8214C33415039464E", "7602141341101000265", "7602295616529201203",
      "76023000000000080AA", "7E82239303031363300", "7E82300AAAAAAAAAAAA"] rfl).2 _ rfl
      0x760⟩

/-! ## The loop of `parseCanFrames` -/

theorem addFrames_append (p : Parser) (xs ys : List String) :
    addFrames p (xs ++ ys) =
      if (addFrames p xs).thrown = none then addFrames (addFrames p xs).parser ys
      else addFrames p xs := by
  induction xs generalizing p with
  | nil => simp [addFrames]
  | cons frame rest ih =>
    cases hthrow : (addFrame p frame).thrown with
    | some e =>
      have hstep := addFrame_eta p frame
      rw [hthrow] at hstep
      rw [List.cons_append, addFrames_cons_thrown _ _ _ _ _ hstep,
        addFrames_cons_thrown _ _ _ _ _ hstep]
      simp
    | none =>
      have hstep := addFrame_eta p frame
      rw [hthrow] at hstep
      rw [List.cons_append, addFrames_cons_ok _ _ _ _ hstep, addFrames_cons_ok _ _ _ _ hstep]
      exact ih _

theorem parseCanFrames_error_iff (frames : List String) (e : ParseError) :
    parseCanFrames frames = .error e ↔ (addFrames Parser.empty frames).thrown = some e := by
  unfold parseCanFrames
  split
  · next q heq => simp [heq]
  · next q e' heq => simp [heq]

theorem addFrames_thrown_split (frames : List String) :
    ∀ (p : Parser) (e : ParseError), (addFrames p frames).thrown = some e →
      ∃ pre frame post, frames = pre ++ frame :: post ∧ (addFrames p pre).thrown = none ∧
        (addFrame (addFrames p pre).parser frame).thrown = some e := by
  induction frames with
  | nil =>
    intro p e h
    simp [addFrames] at h
  | cons frame rest ih =>
    intro p e h
    cases hthrow : (addFrame p frame).thrown with
    | some e' =>
      have hstep := addFrame_eta p frame
      rw [hthrow] at hstep
      rw [addFrames_cons_thrown _ _ _ _ _ hstep] at h
      simp only [Option.some.injEq] at h
      subst h
      exact ⟨[], frame, rest, rfl, rfl, hthrow⟩
    | none =>
      have hstep := addFrame_eta p frame
      rw [hthrow] at hstep
      rw [addFrames_cons_ok _ _ _ _ hstep] at h
      obtain ⟨pre, f, post, hsplit, hpre, hf⟩ := ih _ e h
      refine ⟨frame :: pre, f, post, by simp [hsplit], ?_, ?_⟩
      · rw [addFrames_cons_ok _ _ _ _ hstep]; exact hpre
      · rw [addFrames_cons_ok _ _ _ _ hstep]; exact hf

theorem addFrames_thrown_at (p : Parser) (pre post : List String) (frame : String)
    (e : ParseError) (hpre : (addFrames p pre).thrown = none)
    (hframe : (addFrame (addFrames p pre).parser frame).thrown = some e) :
    (addFrames p (pre ++ frame :: post)).thrown = some e := by
  have hstep := addFrame_eta (addFrames p pre).parser frame
  rw [hframe] at hstep
  rw [addFrames_append, if_pos hpre, addFrames_cons_thrown _ _ _ _ _ hstep]

/-! ## Frames of the wrong length -/

/-- C11: a string whose length is not 19 is rejected by `addFrame` with `MalformedFrame`,
at the first test of the function, and the parser is left as it was; so `parseCanFrames`
fails with `MalformedFrame` on every list in which such a string is reached, that is, in
which the frames before it are all accepted. -/
theorem wrong_length_rejected (p : Parser) (frame : String) (hlen : frame.length ≠ 19) :
    addFrame p frame = ⟨p, some .MalformedFrame⟩ ∧
    ∀ pre post : List String, (addFrames Parser.empty pre).thrown = none →
      parseCanFrames (pre ++ frame :: post) = .error .MalformedFrame := by
  have hstep : ∀ q : Parser, addFrame q frame = ⟨q, some .MalformedFrame⟩ := by
    intro q
    simp [addFrame, expectedFrameLength, hlen]
  refine ⟨hstep p, fun pre post hpre => ?_⟩
  rw [parseCanFrames_error_iff]
  apply addFrames_thrown_at _ _ _ _ _ hpre
  rw [hstep]

/-- The test `testInvalidLengthThrows`: the 12-character string `7400210C0000`. -/
theorem wrong_length_rejected_witness :
    addFrame Parser.empty "7400210C0000" = ⟨Parser.empty, some .MalformedFrame⟩ ∧
    parseCanFrames ["7400210C0000"] = .error .MalformedFrame :=
  ⟨(wrong_length_rejected Parser.empty "7400210C0000" (by decide)).1,
   (wrong_length_rejected Parser.empty "7400210C0000" (by decide)).2 [] [] rfl⟩

/-! ## The abort-all policy -/

/-- C12: `parseCanFrames` fails exactly when some frame is rejected by `addFrame` in the
state the frames before it lead to; the error is then the one of the first rejected
frame; a failed call returns no messages; and frames after the rejected one change
nothing: when `parseCanFrames xs` fails, `parseCanFrames (xs ++ ys)` fails with the same
error. -/
theorem first_error_aborts (frames : List String) :
    ((∃ e, parseCanFrames frames = .error e) ↔
      ∃ pre frame post, frames = pre ++ frame :: post ∧
        (addFrames Parser.empty pre).thrown = none ∧
        (addFrame (addFrames Parser.empty pre).parser frame).thrown ≠ none) ∧
    (∀ pre frame post e, frames = pre ++ frame :: post →
      (addFrames Parser.empty pre).thrown = none →
      (addFrame (addFrames Parser.empty pre).parser frame).thrown = some e →
      parseCanFrames frames = .error e) ∧
    (∀ e, parseCanFrames frames = .error e → ∀ messages, parseCanFrames frames ≠ .ok messages) ∧
    (∀ e more, parseCanFrames frames = .error e →
      parseCanFrames (frames ++ more) = .error e) := by
  have hat : ∀ pre frame post e, frames = pre ++ frame :: post →
      (addFrames Parser.empty pre).thrown = none →
      (addFrame (addFrames Parser.empty pre).parser frame).thrown = some e →
      parseCanFrames frames = .error e := by
    intro pre frame post e hsplit hpre hframe
    rw [parseCanFrames_error_iff, hsplit]
    exact addFrames_thrown_at _ _ _ _ _ hpre hframe
  refine ⟨⟨?_, ?_⟩, hat, ?_, ?_⟩
  · rintro ⟨e, he⟩
    rw [parseCanFrames_error_iff] at he
    obtain ⟨pre, frame, post, hsplit, hpre, hframe⟩ := addFrames_thrown_split frames _ e he
    exact ⟨pre, frame, post, hsplit, hpre, by simp [hframe]⟩
  · rintro ⟨pre, frame, post, hsplit, hpre, hframe⟩
    cases hthrow : (addFrame (addFrames Parser.empty pre).parser frame).thrown with
    | none => exact absurd hthrow hframe
    | some e => exact ⟨e, hat pre frame post e hsplit hpre hthrow⟩
  · intro e he messages hok
    rw [he] at hok
    cases hok
  · intro e more he
    rw [parseCanFrames_error_iff] at he ⊢
    rw [addFrames_append]
    simp [he]

/-- The test `testOutOfOrderConsecutiveFrameThrows` with two more frames behind: the
second frame is rejected with `OutOfOrderFrame`, and so is the whole list. -/
theorem first_error_aborts_witness :
    parseCanFrames ["760101A618339484D31", "7602295616529201203"] =
      .error .OutOfOrderFrame ∧
    parseCanFrames (["760101A618339484D31", "7602295616529201203"] ++
      ["7602141341101000265", "7400210C00000000000"]) = .error .OutOfOrderFrame :=
  ⟨rfl,
   (first_error_aborts ["760101A618339484D31", "7602295616529201203"]).2.2.2
      .OutOfOrderFrame ["7602141341101000265", "7400210C00000000000"] rfl⟩

/-! ## Frames that are ignored -/

/-- C14: a decoded frame whose type nibble is none of 0, 1, 2, 3 is accepted and has no
effect, whatever its other bytes: `addFrame` returns the parser as it was and throws
nothing. -/
theorem unknown_type_ignored (p : Parser) (frame : String)
    (b₀ b₁ b₂ b₃ b₄ b₅ b₆ b₇ b₈ b₉ : Nat)
    (hdec : stringToBuffer frame = .ok [b₀, b₁, b₂, b₃, b₄, b₅, b₆, b₇, b₈, b₉])
    (htype : 4 ≤ b₂ / 16) :
    addFrame p frame = ⟨p, none⟩ := by
  rw [addFrame_of_decoded p frame _ _ _ _ _ _ _ _ _ _ hdec]
  obtain ⟨n, hn⟩ : ∃ n, b₂ / 16 = n + 4 := ⟨b₂ / 16 - 4, by omega⟩
  rw [hn]
  rfl

/-- With a session open for `0x760`, the frame `760F1FFFFFFFFFFFFFF` of type `0xF` for the
same id changes nothing. -/
theorem unknown_type_ignored_witness :
    addFrame ⟨[], [(0x760, ⟨26, 1, [0x61, 0x83, 0x39, 0x48, 0x4D, 0x31]⟩)]⟩
        "760F1FFFFFFFFFFFFFF" =
      ⟨⟨[], [(0x760, ⟨26, 1, [0x61, 0x83, 0x39, 0x48, 0x4D, 0x31]⟩)]⟩, none⟩ :=
  unknown_type_ignored ⟨[], [(0x760, ⟨26, 1, [0x61, 0x83, 0x39, 0x48, 0x4D, 0x31]⟩)]⟩
    "760F1FFFFFFFFFFFFFF" 0x7 0x60 0xF1 0xFF 0xFF 0xFF 0xFF 0xFF 0xFF 0xFF rfl (by decide)

/-- C15: a flow-control frame whose status flag is not 2 is accepted and is a no-op:
`addFrame` returns the parser as it was and throws nothing. -/
theorem flow_control_other_flag_ignored (p : Parser) (frame : String)
    (b₀ b₁ b₂ b₃ b₄ b₅ b₆ b₇ b₈ b₉ : Nat)
    (hdec : stringToBuffer frame = .ok [b₀, b₁, b₂, b₃, b₄, b₅, b₆, b₇, b₈, b₉])
    (htype : b₂ / 16 = 3) (hflag : b₂ % 16 ≠ 2) :
    addFrame p frame = ⟨p, none⟩ := by
  obtain ⟨h₀, h₁, _, _⟩ := bounds_of_decoded frame _ _ _ _ _ _ _ _ _ _ hdec
  rw [addFrame_of_decoded p frame _ _ _ _ _ _ _ _ _ _ hdec, htype]
  simp [parseFlowControlFrame_ten p _ _ _ _ _ _ _ _ _ _ h₀ h₁, hflag]

/-- With a session open for `0x760`, the flow-control frame `7403000000000000000` with
flag 0 and the id `0x740` leaves the session in place. -/
theorem flow_control_other_flag_ignored_witness :
    addFrame ⟨[], [(0x760, ⟨26, 1, [0x61, 0x83, 0x39, 0x48, 0x4D, 0x31]⟩)]⟩
        "7403000000000000000" =
      ⟨⟨[], [(0x760, ⟨26, 1, [0x61, 0x83, 0x39, 0x48, 0x4D, 0x31]⟩)]⟩, none⟩ :=
  flow_control_other_flag_ignored
    ⟨[], [(0x760, ⟨26, 1, [0x61, 0x83, 0x39, 0x48, 0x4D, 0x31]⟩)]⟩
    "7403000000000000000" 0x7 0x40 0x30 0 0 0 0 0 0 0 rfl rfl (by decide)

/-! ## Decoding of a string of hexadecimal digits -/

theorem digitAt_zero_cons (c : Char) (rest : List Char) :
    digitAt (c :: rest) 0 = (hexDigit c).getD 0 := by
  simp [digitAt]

theorem digitAt_succ_cons (c : Char) (rest : List Char) (i : Nat) :
    digitAt (c :: rest) (i + 1) = digitAt rest i := by
  simp [digitAt]

theorem fromChars_one_hex (c : Char) (d : Nat) (h : hexDigit c = some d) :
    fromChars [c] = some d := by
  have hd := hexDigit_lt c d h
  have hlt : d < 256 := by omega
  simp [fromChars, leadingDigits, h, hlt]

theorem fromChars_two_hex (c₁ c₂ : Char) (d₁ d₂ : Nat) (h₁ : hexDigit c₁ = some d₁)
    (h₂ : hexDigit c₂ = some d₂) : fromChars [c₁, c₂] = some (16 * d₁ + d₂) := by
  have hd₁ := hexDigit_lt c₁ d₁ h₁
  have hd₂ := hexDigit_lt c₂ d₂ h₂
  have hlt : 16 * d₁ + d₂ < 256 := by omega
  simp [fromChars, leadingDigits, h₁, h₂, hlt]

theorem decodePairs_hex (chars : List Char) :
    chars.all isHexChar = true → chars.length % 2 = 0 →
    ∃ buffer, decodePairs chars = .ok buffer ∧ 2 * buffer.length = chars.length ∧
      ∀ k, k < buffer.length →
        buffer[k]? = some (16 * digitAt chars (2 * k) + digitAt chars (2 * k + 1)) := by
  induction chars using decodePairs.induct with
  | case1 =>
    intro _ _
    exact ⟨[], rfl, rfl, fun k hk => absurd hk (by simp)⟩
  | case2 c hc =>
    intro _ hlen
    simp at hlen
  | case3 c x hc =>
    intro _ hlen
    simp at hlen
  | case4 c₁ c₂ rest hf =>
    intro hall _
    simp only [List.all_cons, Bool.and_eq_true, isHexChar, Option.isSome_iff_exists] at hall
    obtain ⟨⟨d₁, hd₁⟩, ⟨d₂, hd₂⟩, _⟩ := hall
    rw [fromChars_two_hex c₁ c₂ d₁ d₂ hd₁ hd₂] at hf
    cases hf
  | case5 c₁ c₂ rest byteValue hf buffer hrest ih =>
    intro hall hlen
    simp only [List.all_cons, Bool.and_eq_true] at hall
    obtain ⟨buffer', hdec', hlen', hbytes⟩ := ih hall.2.2 (by simp at hlen; omega)
    rw [hrest] at hdec'
    cases hdec'
    simp only [isHexChar, Option.isSome_iff_exists] at hall
    obtain ⟨⟨d₁, hd₁⟩, ⟨d₂, hd₂⟩, _⟩ := hall
    rw [fromChars_two_hex c₁ c₂ d₁ d₂ hd₁ hd₂] at hf
    cases hf
    refine ⟨(16 * d₁ + d₂) :: buffer, by simp [decodePairs, fromChars_two_hex c₁ c₂ d₁ d₂ hd₁ hd₂,
      hrest], by simp; omega, ?_⟩
    intro k hk
    cases k with
    | zero => simp [digitAt, hd₁, hd₂]
    | succ k =>
      have h1 : 2 * (k + 1) = (2 * k + 1) + 1 := by omega
      simp only [h1, digitAt_succ_cons]
      simpa using hbytes k (by simpa using hk)
  | case6 c₁ c₂ rest byteValue hf e hrest ih =>
    intro hall hlen
    simp only [List.all_cons, Bool.and_eq_true] at hall
    obtain ⟨buffer', hdec', _⟩ := ih hall.2.2 (by simp at hlen; omega)
    rw [hrest] at hdec'
    cases hdec'

theorem digitAt_lt (chars : List Char) (i : Nat) : digitAt chars i < 16 := by
  unfold digitAt
  cases chars[i]? with
  | none => simp
  | some c =>
    cases hc : hexDigit c with
    | none => simp [hc]
    | some v =>
      have := hexDigit_lt c v hc
      simpa [hc] using this

/-- C13: a string of 19 hexadecimal digits is decoded by `stringToBuffer` to exactly ten
bytes: byte 0 is the value of the first character alone, below 16, and byte `k`, for
`k` from 1 to 9, is 16 times the value of character `2k - 1` plus the value of character
`2k`; so the id `getCanId` reads is the value of the first three characters. -/
theorem hex_string_decodes (frame : String) (hlen : frame.length = 19)
    (hhex : frame.data.all isHexChar = true) :
    ∃ buffer, stringToBuffer frame = .ok buffer ∧ buffer.length = 10 ∧
      buffer[0]? = some (digitAt frame.data 0) ∧ digitAt frame.data 0 < 16 ∧
      (∀ k, 1 ≤ k → k ≤ 9 →
        buffer[k]? = some (16 * digitAt frame.data (2 * k - 1) + digitAt frame.data (2 * k))) ∧
      getCanId buffer =
        .ok (256 * digitAt frame.data 0 + 16 * digitAt frame.data 1 + digitAt frame.data 2) := by
  have hl : frame.data.length = 19 := hlen
  unfold stringToBuffer
  generalize frame.data = chars at hl hhex ⊢
  cases chars with
  | nil => simp at hl
  | cons c rest =>
    simp only [List.all_cons, Bool.and_eq_true, isHexChar, Option.isSome_iff_exists] at hhex
    obtain ⟨⟨d, hd⟩, hrest⟩ := hhex
    have hdlt := hexDigit_lt c d hd
    have hrlen : rest.length = 18 := by simpa using hl
    obtain ⟨buffer, hdec, hblen, hbytes⟩ := decodePairs_hex rest hrest (by omega)
    have hb10 : buffer.length = 9 := by omega
    have hb1 := hbytes 0 (by omega)
    refine ⟨d :: buffer, by simp [fromChars_one_hex c d hd, hdec], by simp [hb10],
      by simp [digitAt, hd], by simp [digitAt, hd, hdlt], ?_, ?_⟩
    · intro k hk1 hk9
      obtain ⟨j, rfl⟩ : ∃ j, k = j + 1 := ⟨k - 1, by omega⟩
      have h1 : 2 * (j + 1) - 1 = 2 * j + 1 := by omega
      have h2 : 2 * (j + 1) = (2 * j + 1) + 1 := by omega
      rw [h1, h2, digitAt_succ_cons, digitAt_succ_cons]
      simpa using hbytes j (by omega)
    · have hd0 : digitAt (c :: rest) 0 = d := by simp [digitAt, hd]
      have hv0 := digitAt_lt rest 0
      have hv1 := digitAt_lt rest 1
      have e1 : digitAt (c :: rest) 1 = digitAt rest 0 := digitAt_succ_cons c rest 0
      have e2 : digitAt (c :: rest) 2 = digitAt rest 1 := digitAt_succ_cons c rest 1
      rw [hd0, e1, e2]
      have hmod : (d * 256 + (16 * digitAt rest 0 + digitAt rest 1)) % 65536 =
          256 * d + 16 * digitAt rest 0 + digitAt rest 1 := by omega
      simp only [Nat.mul_zero, Nat.zero_add] at hb1
      simp [getCanId, byteAt, hb1, shiftLeft_8, hmod]

/-- The frame `7400210C00000000000` of `testSingleFrame`: ten bytes, the first of them
`0x7`, the second `0x40`, and the id `0x740`. -/
theorem hex_string_decodes_witness :
    ∃ buffer, stringToBuffer "7400210C00000000000" = .ok buffer ∧ buffer.length = 10 ∧
      buffer[0]? = some 0x7 ∧ buffer[1]? = some 0x40 ∧ getCanId buffer = .ok 0x740 := by
  obtain ⟨buffer, h1, h2, h3, _, h5, h6⟩ :=
    hex_string_decodes "7400210C00000000000" (by decide) (by decide)
  exact ⟨buffer, h1, h2, h3, h5 1 (by decide) (by decide), h6⟩

/-! ## Upper and lower case -/

theorem hexDigit_eq_of_sameHexCase (c d : Char) (h : sameHexCase c d = true) :
    hexDigit c = hexDigit d := by
  have hc : hexDigit c =
      if 48 ≤ c.toNat ∧ c.toNat ≤ 57 then some (c.toNat - 48)
      else if 97 ≤ c.toNat ∧ c.toNat ≤ 102 then some (c.toNat - 87)
      else if 65 ≤ c.toNat ∧ c.toNat ≤ 70 then some (c.toNat - 55)
      else none := rfl
  have hd : hexDigit d =
      if 48 ≤ d.toNat ∧ d.toNat ≤ 57 then some (d.toNat - 48)
      else if 97 ≤ d.toNat ∧ d.toNat ≤ 102 then some (d.toNat - 87)
      else if 65 ≤ d.toNat ∧ d.toNat ≤ 70 then some (d.toNat - 55)
      else none := rfl
  simp only [sameHexCase, Bool.or_eq_true, Bool.and_eq_true, beq_iff_eq, decide_eq_true_eq]
    at h
  rcases h with (h | h) | h
  · rw [h]
  · rw [hc, hd]
    obtain ⟨⟨h1, h2⟩, h3⟩ := h
    have e1 : ¬ (48 ≤ c.toNat ∧ c.toNat ≤ 57) := by omega
    have e2 : ¬ (48 ≤ d.toNat ∧ d.toNat ≤ 57) := by omega
    have e3 : 97 ≤ c.toNat ∧ c.toNat ≤ 102 := ⟨h1, h2⟩
    have e4 : ¬ (97 ≤ d.toNat ∧ d.toNat ≤ 102) := by omega
    have e5 : 65 ≤ d.toNat ∧ d.toNat ≤ 70 := by omega
    rw [if_neg e1, if_pos e3, if_neg e2, if_neg e4, if_pos e5]
    congr 1
    omega
  · rw [hc, hd]
    obtain ⟨⟨h1, h2⟩, h3⟩ := h
    have e1 : ¬ (48 ≤ c.toNat ∧ c.toNat ≤ 57) := by omega
    have e2 : ¬ (48 ≤ d.toNat ∧ d.toNat ≤ 57) := by omega
    have e3 : 97 ≤ d.toNat ∧ d.toNat ≤ 102 := ⟨h1, h2⟩
    have e4 : ¬ (97 ≤ c.toNat ∧ c.toNat ≤ 102) := by omega
    have e5 : 65 ≤ c.toNat ∧ c.toNat ≤ 70 := by omega
    rw [if_neg e1, if_neg e4, if_pos e5, if_neg e2, if_pos e3]
    congr 1
    omega

theorem sameUpToCase_digits (cs : List Char) :
    ∀ ds : List Char, sameUpToCase cs ds = true →
      cs.length = ds.length ∧ cs.map hexDigit = ds.map hexDigit := by
  induction cs with
  | nil =>
    intro ds h
    cases ds with
    | nil => exact ⟨rfl, rfl⟩
    | cons d ds => simp [sameUpToCase] at h
  | cons c cs ih =>
    intro ds h
    cases ds with
    | nil => simp [sameUpToCase] at h
    | cons d ds =>
      simp only [sameUpToCase, Bool.and_eq_true] at h
      obtain ⟨h1, h2⟩ := ih ds h.2
      exact ⟨by simp [h1], by simp [hexDigit_eq_of_sameHexCase c d h.1, h2]⟩

theorem decodePairs_congr (cs : List Char) :
    ∀ ds : List Char, cs.map hexDigit = ds.map hexDigit → decodePairs cs = decodePairs ds := by
  induction cs using decodePairs.induct with
  | case1 =>
    intro ds h
    cases ds with
    | nil => rfl
    | cons d ds => simp at h
  | case2 c hc =>
    intro ds h
    rcases ds with _ | ⟨d, _ | ⟨d₂, ds⟩⟩
    · simp at h
    · simp only [List.map_cons, List.map_nil, List.cons.injEq, and_true] at h
      simp [decodePairs, ← h, hc]
    · simp at h
  | case3 c x hc =>
    intro ds h
    rcases ds with _ | ⟨d, _ | ⟨d₂, ds⟩⟩
    · simp at h
    · simp only [List.map_cons, List.map_nil, List.cons.injEq, and_true] at h
      simp [decodePairs, ← h, hc]
    · simp at h
  | case4 c₁ c₂ rest hf =>
    intro ds h
    rcases ds with _ | ⟨d₁, _ | ⟨d₂, ds⟩⟩
    · simp at h
    · simp at h
    · simp only [List.map_cons, List.cons.injEq] at h
      have hf' : fromChars [d₁, d₂] = fromChars [c₁, c₂] := by
        simp [fromChars, leadingDigits, ← h.1, ← h.2.1]
      simp [decodePairs, hf', hf]
  | case5 c₁ c₂ rest byteValue hf buffer hrest ih =>
    intro ds h
    rcases ds with _ | ⟨d₁, _ | ⟨d₂, ds⟩⟩
    · simp at h
    · simp at h
    · simp only [List.map_cons, List.cons.injEq] at h
      have hf' : fromChars [d₁, d₂] = fromChars [c₁, c₂] := by
        simp [fromChars, leadingDigits, ← h.1, ← h.2.1]
      simp [decodePairs, hf', hf, ← ih ds h.2.2, hrest]
  | case6 c₁ c₂ rest byteValue hf e hrest ih =>
    intro ds h
    rcases ds with _ | ⟨d₁, _ | ⟨d₂, ds⟩⟩
    · simp at h
    · simp at h
    · simp only [List.map_cons, List.cons.injEq] at h
      have hf' : fromChars [d₁, d₂] = fromChars [c₁, c₂] := by
        simp [fromChars, leadingDigits, ← h.1, ← h.2.1]
      simp [decodePairs, hf', hf, ← ih ds h.2.2, hrest]

theorem addFrame_congr_case (p : Parser) (s t : String)
    (h : sameUpToCase s.data t.data = true) : addFrame p s = addFrame p t := by
  obtain ⟨hlen, hdigits⟩ := sameUpToCase_digits s.data t.data h
  have hlen' : s.length = t.length := hlen
  have hdec : stringToBuffer s = stringToBuffer t := by
    unfold stringToBuffer
    generalize s.data = cs at hdigits
    generalize t.data = ds at hdigits
    rcases cs with _ | ⟨c, cs⟩ <;> rcases ds with _ | ⟨d, ds⟩
    · rfl
    · simp at hdigits
    · simp at hdigits
    · simp only [List.map_cons, List.cons.injEq] at hdigits
      have hf : fromChars [c] = fromChars [d] := by
        simp [fromChars, leadingDigits, hdigits.1]
      simp only [hf, decodePairs_congr cs ds hdigits.2]
  simp only [addFrame, hlen', hdec]

theorem addFrames_congr_case (xs : List String) :
    ∀ (ys : List String) (p : Parser), framesSameUpToCase xs ys = true →
      addFrames p xs = addFrames p ys := by
  induction xs with
  | nil =>
    intro ys p h
    cases ys with
    | nil => rfl
    | cons t ts => simp [framesSameUpToCase] at h
  | cons s ss ih =>
    intro ys p h
    cases ys with
    | nil => simp [framesSameUpToCase] at h
    | cons t ts =>
      simp only [framesSameUpToCase, Bool.and_eq_true] at h
      simp only [addFrames, addFrame_congr_case p s t h.1]
      split
      · exact ih ts _ h.2
      · rfl

theorem framesSameUpToCase_take (xs : List String) :
    ∀ (ys : List String) (n : Nat), framesSameUpToCase xs ys = true →
      framesSameUpToCase (xs.take n) (ys.take n) = true := by
  induction xs with
  | nil =>
    intro ys n h
    cases ys with
    | nil => simp [framesSameUpToCase]
    | cons t ts => simp [framesSameUpToCase] at h
  | cons s ss ih =>
    intro ys n h
    cases ys with
    | nil => simp [framesSameUpToCase] at h
    | cons t ts =>
      cases n with
      | zero => simp [framesSameUpToCase]
      | succ n =>
        simp only [framesSameUpToCase, Bool.and_eq_true] at h
        simp [framesSameUpToCase, h.1, ih ts n h.2]

/-- C16: decoding does not depend on the case of the letters `a` to `f`. When two lists
of frames differ only in that case, `addFrame` does the same on corresponding frames in
every state, and `parseCanFrames` has the same outcome on both lists and on every pair of
initial segments of the same length: the same messages in the same order, or the same
error at the same frame. -/
theorem decoding_case_insensitive (xs ys : List String)
    (h : framesSameUpToCase xs ys = true) :
    (∀ p : Parser, addFrames p xs = addFrames p ys) ∧
    parseCanFrames xs = parseCanFrames ys ∧
    ∀ n, parseCanFrames (xs.take n) = parseCanFrames (ys.take n) := by
  refine ⟨fun p => addFrames_congr_case xs ys p h, ?_, fun n => ?_⟩
  · simp only [parseCanFrames, addFrames_congr_case xs ys _ h]
  · simp only [parseCanFrames,
      addFrames_congr_case _ _ _ (framesSameUpToCase_take xs ys n h)]

/-- The frames of `testMultiFrameAssembly`, written with the letters in lower case and in
upper case, give the same result. -/
theorem decoding_case_insensitive_witness :
    parseCanFrames ["760101a618339484d31", "7602141341101000265", "7602295616529201203",
        "76023000000000080aA"] =
      parseCanFrames ["760101A618339484D31", "7602141341101000265", "7602295616529201203",
        "76023000000000080AA"] :=
  (decoding_case_insensitive
    ["760101a618339484d31", "7602141341101000265", "7602295616529201203",
      "76023000000000080aA"]
    ["760101A618339484D31", "7602141341101000265", "7602295616529201203",
      "76023000000000080AA"] (by decide)).2.1

/-! ## Every frame, decoded or not -/

theorem ten_bytes (buffer : CanBuffer) (h : buffer.length = 10) :
    ∃ b₀ b₁ b₂ b₃ b₄ b₅ b₆ b₇ b₈ b₉ : Nat,
      buffer = [b₀, b₁, b₂, b₃, b₄, b₅, b₆, b₇, b₈, b₉] := by
  rcases buffer with _ | ⟨b₀, _ | ⟨b₁, _ | ⟨b₂, _ | ⟨b₃, _ | ⟨b₄, _ | ⟨b₅, _ | ⟨b₆, _ | ⟨b₇,
    _ | ⟨b₈, _ | ⟨b₉, _ | ⟨b, rest⟩⟩⟩⟩⟩⟩⟩⟩⟩⟩⟩ <;> simp at h
  exact ⟨b₀, b₁, b₂, b₃, b₄, b₅, b₆, b₇, b₈, b₉, rfl⟩

theorem decodePairs_error (chars : List Char) (e : ParseError)
    (heven : chars.length % 2 = 0) (h : decodePairs chars = .error e) :
    e = .MalformedFrame := by
  induction chars using decodePairs.induct with
  | case1 => simp [decodePairs] at h
  | case2 c hc => simp at heven
  | case3 c x hc => simp at heven
  | case4 c₁ c₂ rest hf =>
    simp [decodePairs, hf] at h
    exact h.symm
  | case5 c₁ c₂ rest byteValue hf buffer hrest ih => simp [decodePairs, hf, hrest] at h
  | case6 c₁ c₂ rest byteValue hf e' hrest ih =>
    simp [decodePairs, hf, hrest] at h
    subst h
    exact ih (by simp at heven; omega) hrest

theorem stringToBuffer_error (frame : String) (e : ParseError)
    (hodd : frame.length % 2 = 1) (h : stringToBuffer frame = .error e) :
    e = .MalformedFrame := by
  have hl : frame.data.length % 2 = 1 := hodd
  unfold stringToBuffer at h
  generalize frame.data = chars at hl h
  cases chars with
  | nil => simp at hl
  | cons c rest =>
    cases hf : fromChars [c] with
    | none =>
      simp [hf] at h
      exact h.symm
    | some v =>
      cases hr : decodePairs rest with
      | ok buffer => simp [hf, hr] at h
      | error e' =>
        simp [hf, hr] at h
        subst h
        exact decodePairs_error rest _ (by simp at hl; omega) hr

theorem addFrame_cases (p : Parser) (frame : String) :
    addFrame p frame = ⟨p, some .MalformedFrame⟩ ∨
      ∃ b₀ b₁ b₂ b₃ b₄ b₅ b₆ b₇ b₈ b₉ : Nat,
        stringToBuffer frame = .ok [b₀, b₁, b₂, b₃, b₄, b₅, b₆, b₇, b₈, b₉] := by
  by_cases hlen : frame.length = 19
  · cases hdec : stringToBuffer frame with
    | error e =>
      left
      have he := stringToBuffer_error frame e (by omega) hdec
      subst he
      simp [addFrame, expectedFrameLength, hlen, hdec]
    | ok buffer =>
      right
      have h10 : buffer.length = 10 := by
        have := (stringToBuffer_ok frame buffer hdec).1
        omega
      obtain ⟨b₀, b₁, b₂, b₃, b₄, b₅, b₆, b₇, b₈, b₉, rfl⟩ := ten_bytes buffer h10
      exact ⟨b₀, b₁, b₂, b₃, b₄, b₅, b₆, b₇, b₈, b₉, rfl⟩
  · left
    simp [addFrame, expectedFrameLength, hlen]

theorem addFrame_effect (p : Parser) (frame : String)
    (b₀ b₁ b₂ b₃ b₄ b₅ b₆ b₇ b₈ b₉ : Nat)
    (hdec : stringToBuffer frame = .ok [b₀, b₁, b₂, b₃, b₄, b₅, b₆, b₇, b₈, b₉]) :
    (∃ e, e ≠ ParseError.OutOfRange ∧ addFrame p frame = ⟨p, some e⟩) ∨
    addFrame p frame = ⟨p, none⟩ ∨
    (∃ payload, addFrame p frame =
      ⟨⟨p.parsedMessages ++ [⟨256 * b₀ + b₁, payload⟩], p.pendingMessages⟩, none⟩) ∨
    (6 < 256 * (b₂ % 16) + b₃ ∧ b₃ < 256 ∧ addFrame p frame =
      ⟨⟨p.parsedMessages, p.pendingMessages.emplace (256 * b₀ + b₁)
        ⟨256 * (b₂ % 16) + b₃, 1, [b₄, b₅, b₆, b₇, b₈, b₉]⟩⟩, none⟩) ∨
    (∃ s, p.pendingMessages.find (256 * b₀ + b₁) = some s ∧
      (s.payload ++ [b₃, b₄, b₅, b₆, b₇, b₈, b₉].take
        (min ((s.expectedSize + 2 ^ 64 - s.payload.length) % 2 ^ 64) 7)).length =
          s.expectedSize ∧
      addFrame p frame =
        ⟨⟨p.parsedMessages ++ [⟨256 * b₀ + b₁, s.payload ++ [b₃, b₄, b₅, b₆, b₇, b₈, b₉].take
            (min ((s.expectedSize + 2 ^ 64 - s.payload.length) % 2 ^ 64) 7)⟩],
          p.pendingMessages.erase (256 * b₀ + b₁)⟩, none⟩) ∨
    (∃ s, p.pendingMessages.find (256 * b₀ + b₁) = some s ∧
      (s.payload ++ [b₃, b₄, b₅, b₆, b₇, b₈, b₉].take
        (min ((s.expectedSize + 2 ^ 64 - s.payload.length) % 2 ^ 64) 7)).length ≠
          s.expectedSize ∧
      addFrame p frame =
        ⟨⟨p.parsedMessages, p.pendingMessages.assign (256 * b₀ + b₁)
          ⟨s.expectedSize, (s.expectedIndex + 1) % 16,
            s.payload ++ [b₃, b₄, b₅, b₆, b₇, b₈, b₉].take
              (min ((s.expectedSize + 2 ^ 64 - s.payload.length) % 2 ^ 64) 7)⟩⟩, none⟩) ∨
    addFrame p frame =
      ⟨⟨p.parsedMessages, (p.pendingMessages.erase (256 * b₀ + b₁ + 0x20)).erase
        (256 * b₀ + b₁ + 0x8)⟩, none⟩ := by
  obtain ⟨h₀, h₁, _, h₃⟩ := bounds_of_decoded frame _ _ _ _ _ _ _ _ _ _ hdec
  rw [addFrame_of_decoded p frame _ _ _ _ _ _ _ _ _ _ hdec]
  match b₂ / 16 with
  | 0 =>
    simp only [parseSingleFrame_ten _ _ _ _ _ _ _ _ _ _ _ h₀ h₁]
    by_cases h : b₂ % 16 > 7
    · exact Or.inl ⟨.PayloadTooLarge, by decide, by simp [h]⟩
    · exact Or.inr (Or.inr (Or.inl
        ⟨[b₃, b₄, b₅, b₆, b₇, b₈, b₉].take (b₂ % 16), by simp [h]⟩))
  | 1 =>
    simp only [parseFirstFrame_ten _ _ _ _ _ _ _ _ _ _ _ h₀ h₁ h₃]
    by_cases h : p.pendingMessages.contains (256 * b₀ + b₁) = true
    · exact Or.inl ⟨.DuplicateSession, by decide, by simp [h]⟩
    · by_cases h6 : 256 * (b₂ % 16) + b₃ ≤ 6
      · exact Or.inr (Or.inr (Or.inl
          ⟨[b₄, b₅, b₆, b₇, b₈, b₉].take (256 * (b₂ % 16) + b₃), by simp [h, h6]⟩))
      · exact Or.inr (Or.inr (Or.inr (Or.inl ⟨by omega, h₃, by simp [h, h6]⟩)))
  | 2 =>
    simp only [parseConsecutiveFrame_ten _ _ _ _ _ _ _ _ _ _ _ h₀ h₁]
    cases hs : p.pendingMessages.find (256 * b₀ + b₁) with
    | none => exact Or.inl ⟨.NoSuchSession, by decide, rfl⟩
    | some s =>
      by_cases hi : b₂ % 16 = s.expectedIndex
      · simp only [hi, ne_eq, not_true_eq_false, if_false]
        by_cases hfull : (s.payload ++ [b₃, b₄, b₅, b₆, b₇, b₈, b₉].take
            (min ((s.expectedSize + 2 ^ 64 - s.payload.length) % 2 ^ 64) 7)).length =
              s.expectedSize
        · exact Or.inr (Or.inr (Or.inr (Or.inr (Or.inl ⟨s, rfl, hfull, by rw [if_pos hfull]⟩))))
        · exact Or.inr (Or.inr (Or.inr (Or.inr (Or.inr (Or.inl
            ⟨s, rfl, hfull, by rw [if_neg hfull]⟩)))))
      · exact Or.inl ⟨.OutOfOrderFrame, by decide, by simp [hi]⟩
  | 3 =>
    simp only [parseFlowControlFrame_ten _ _ _ _ _ _ _ _ _ _ _ h₀ h₁]
    by_cases h : b₂ % 16 = 2
    · exact Or.inr (Or.inr (Or.inr (Or.inr (Or.inr (Or.inr (by simp [h]))))))
    · exact Or.inr (Or.inl (by simp [h]))
  | n + 4 => exact Or.inr (Or.inl rfl)

/-! ## The output sequence only grows -/

theorem addFrame_output (p : Parser) (frame : String) :
    (addFrame p frame).parser.parsedMessages = p.parsedMessages ∨
      ∃ m, (addFrame p frame).parser.parsedMessages = p.parsedMessages ++ [m] := by
  rcases addFrame_cases p frame with h | ⟨b₀, b₁, b₂, b₃, b₄, b₅, b₆, b₇, b₈, b₉, hdec⟩
  · left; rw [h]
  · rcases addFrame_effect p frame _ _ _ _ _ _ _ _ _ _ hdec with
      ⟨e, _, h⟩ | h | ⟨payload, h⟩ | ⟨_, _, h⟩ | ⟨s, _, _, h⟩ | ⟨s, _, _, h⟩ | h
    · left; rw [h]
    · left; rw [h]
    · right; exact ⟨_, by rw [h]⟩
    · left; rw [h]
    · right; exact ⟨_, by rw [h]⟩
    · left; rw [h]
    · left; rw [h]

theorem addFrames_output (frames : List String) :
    ∀ p : Parser, ∃ added, (addFrames p frames).parser.parsedMessages =
      p.parsedMessages ++ added := by
  induction frames with
  | nil => exact fun p => ⟨[], by simp [addFrames]⟩
  | cons frame rest ih =>
    intro p
    cases hthrow : (addFrame p frame).thrown with
    | some e =>
      have hstep := addFrame_eta p frame
      rw [hthrow] at hstep
      rw [addFrames_cons_thrown _ _ _ _ _ hstep]
      rcases addFrame_output p frame with h | ⟨m, h⟩
      · exact ⟨[], by simp [h]⟩
      · exact ⟨[m], h⟩
    | none =>
      have hstep := addFrame_eta p frame
      rw [hthrow] at hstep
      rw [addFrames_cons_ok _ _ _ _ hstep]
      obtain ⟨added, hadded⟩ := ih (addFrame p frame).parser
      rcases addFrame_output p frame with h | ⟨m, h⟩
      · exact ⟨added, by rw [hadded, h]⟩
      · exact ⟨m :: added, by rw [hadded, h]; simp⟩

/-- C18: the output sequence is append-only. A call of `addFrame`, accepted or not, leaves
the output as it was or appends one message at its end; hence, when `parseCanFrames`
succeeds on `xs ++ ys`, it succeeds on `xs` and that result is an initial segment of the
result on `xs ++ ys`. -/
theorem output_append_only (p : Parser) (frame : String) :
    ((addFrame p frame).parser.parsedMessages = p.parsedMessages ∨
      ∃ m, (addFrame p frame).parser.parsedMessages = p.parsedMessages ++ [m]) ∧
    ∀ (xs ys : List String) (messages : List CanMessage),
      parseCanFrames (xs ++ ys) = .ok messages →
      ∃ first, parseCanFrames xs = .ok first ∧ first <+: messages := by
  refine ⟨addFrame_output p frame, ?_⟩
  intro xs ys messages hok
  obtain ⟨hnone, hmsgs⟩ := (parseCanFrames_ok_iff _ _).mp hok
  rw [addFrames_append] at hnone hmsgs
  by_cases hxs : (addFrames Parser.empty xs).thrown = none
  · rw [if_pos hxs] at hmsgs
    obtain ⟨added, hadded⟩ := addFrames_output ys (addFrames Parser.empty xs).parser
    refine ⟨_, (parseCanFrames_ok_iff _ _).mpr ⟨hxs, rfl⟩, ?_⟩
    rw [← hmsgs, hadded]
    exact List.prefix_append _ _
  · rw [if_neg hxs] at hnone
    exact absurd hnone hxs

/-- The frames of `testInterleavedMessages`: the result on the first six frames, the
message of `0x760`, opens the result on all eight. -/
theorem output_append_only_witness :
    ∃ first, parseCanFrames ["7E810156181314E3441", "760101A618339484D31",
        "7E8214C33415039464E", "7602141341101000265", "7602295616529201203",
        "76023000000000080AA"] = .ok first ∧
      first <+: [⟨0x760, [0x61, 0x83, 0x39, 0x48, 0x4D, 0x31, 0x41, 0x34, 0x11, 0x01, 0x00,
              0x02, 0x65, 0x95, 0x61, 0x65, 0x29, 0x20, 0x12, 0x03, 0x00, 0x00, 0x00, 0x00,
              0x00, 0x80]⟩,
           ⟨0x7E8, [0x61, 0x81, 0x31, 0x4E, 0x34, 0x41, 0x4C, 0x33, 0x41, 0x50, 0x39, 0x46,
              0x4E, 0x39, 0x30, 0x30, 0x31, 0x36, 0x33, 0x00, 0x00]⟩] :=
  (output_append_only Parser.empty "7400210C00000000000").2
    ["7E810156181314E3441", "760101A618339484D31", "7E8214C33415039464E",
      "7602141341101000265", "7602295616529201203", "76023000000000080AA"]
    ["7E82239303031363300", "7E82300AAAAAAAAAAAA"] _ rfl

/-! ## Accesses stay inside the frame -/

theorem handlers_in_range (p : Parser) (b₀ b₁ b₂ b₃ b₄ b₅ b₆ b₇ b₈ b₉ : Nat)
    (h₀ : b₀ < 16) (h₁ : b₁ < 256) (h₃ : b₃ < 256) :
    (parseSingleFrame p [b₀, b₁, b₂, b₃, b₄, b₅, b₆, b₇, b₈, b₉]).thrown ≠
        some .OutOfRange ∧
    (parseFirstFrame p [b₀, b₁, b₂, b₃, b₄, b₅, b₆, b₇, b₈, b₉]).thrown ≠
        some .OutOfRange ∧
    (parseConsecutiveFrame p [b₀, b₁, b₂, b₃, b₄, b₅, b₆, b₇, b₈, b₉]).thrown ≠
        some .OutOfRange ∧
    (parseFlowControlFrame p [b₀, b₁, b₂, b₃, b₄, b₅, b₆, b₇, b₈, b₉]).thrown ≠
        some .OutOfRange := by
  refine ⟨?_, ?_, ?_, ?_⟩
  · rw [parseSingleFrame_ten _ _ _ _ _ _ _ _ _ _ _ h₀ h₁]
    split_ifs <;> simp
  · rw [parseFirstFrame_ten _ _ _ _ _ _ _ _ _ _ _ h₀ h₁ h₃]
    split_ifs <;> simp
  · rw [parseConsecutiveFrame_ten _ _ _ _ _ _ _ _ _ _ _ h₀ h₁]
    cases p.pendingMessages.find (256 * b₀ + b₁) with
    | none => simp
    | some s =>
      simp only
      split_ifs <;> simp
  · rw [parseFlowControlFrame_ten _ _ _ _ _ _ _ _ _ _ _ h₀ h₁]
    split_ifs <;> simp

/-- C20: for a string of exactly 19 characters `stringToBuffer` throws or returns exactly
ten bytes, and it reads no character outside the string; so the test of the byte count in
`addFrame` (line 76) is false whenever it is reached; and neither `addFrame` nor any of
the four handlers, on the decoded bytes and in any state, reads a byte outside the
buffer. -/
theorem decoded_frame_has_ten_bytes (frame : String) (hlen : frame.length = 19) :
    (∀ buffer, stringToBuffer frame = .ok buffer → buffer.length = 10) ∧
    (∀ buffer, stringToBuffer frame = .ok buffer →
      ¬ buffer.length ≠ (expectedFrameLength + 1) / 2) ∧
    stringToBuffer frame ≠ .error .OutOfRange ∧
    (∀ p : Parser, (addFrame p frame).thrown ≠ some .OutOfRange) ∧
    ∀ (p : Parser) (buffer : CanBuffer), stringToBuffer frame = .ok buffer →
      (parseSingleFrame p buffer).thrown ≠ some .OutOfRange ∧
      (parseFirstFrame p buffer).thrown ≠ some .OutOfRange ∧
      (parseConsecutiveFrame p buffer).thrown ≠ some .OutOfRange ∧
      (parseFlowControlFrame p buffer).thrown ≠ some .OutOfRange := by
  have hten : ∀ buffer, stringToBuffer frame = .ok buffer → buffer.length = 10 := by
    intro buffer hdec
    have := (stringToBuffer_ok frame buffer hdec).1
    omega
  refine ⟨hten, ?_, ?_, ?_, ?_⟩
  · intro buffer hdec
    simp [expectedFrameLength, hten buffer hdec]
  · intro h
    have := stringToBuffer_error frame _ (by omega) h
    cases this
  · intro p
    rcases addFrame_cases p frame with h | ⟨b₀, b₁, b₂, b₃, b₄, b₅, b₆, b₇, b₈, b₉, hdec⟩
    · rw [h]; simp
    · rcases addFrame_effect p frame _ _ _ _ _ _ _ _ _ _ hdec with
        ⟨e, he, h⟩ | h | ⟨payload, h⟩ | ⟨_, _, h⟩ | ⟨s, _, _, h⟩ | ⟨s, _, _, h⟩ | h
      · rw [h]; simpa using he
      all_goals rw [h]; simp
  · intro p buffer hdec
    obtain ⟨b₀, b₁, b₂, b₃, b₄, b₅, b₆, b₇, b₈, b₉, rfl⟩ := ten_bytes buffer (hten buffer hdec)
    obtain ⟨h₀, h₁, _, h₃⟩ := bounds_of_decoded frame _ _ _ _ _ _ _ _ _ _ hdec
    exact handlers_in_range p _ _ _ _ _ _ _ _ _ _ h₀ h₁ h₃

/-- The last consecutive frame `76023000000000080AA` of `testMultiFrameAssembly`, in the
state the three frames before it lead to: ten bytes, and no access out of range. -/
theorem decoded_frame_has_ten_bytes_witness :
    (∀ buffer, stringToBuffer "76023000000000080AA" = .ok buffer → buffer.length = 10) ∧
    (addFrame (addFrames Parser.empty ["760101A618339484D31", "7602141341101000265",
        "7602295616529201203"]).parser "76023000000000080AA").thrown ≠ some .OutOfRange :=
  ⟨(decoded_frame_has_ten_bytes "76023000000000080AA" (by decide)).1,
   (decoded_frame_has_ten_bytes "76023000000000080AA" (by decide)).2.2.2.1 _⟩

/-! ## The invariant of the session table -/

theorem PendingMap.mem_of_find (m : PendingMap) (key : Nat) (s : PendingMessage)
    (h : m.find key = some s) : (key, s) ∈ m := by
  induction m with
  | nil => simp [PendingMap.find] at h
  | cons e rest ih =>
    obtain ⟨k, w⟩ := e
    simp only [PendingMap.find] at h
    split_ifs at h with hk
    · simp only [Option.some.injEq] at h
      subst hk h
      exact List.mem_cons_self _ _
    · exact List.mem_cons_of_mem _ (ih h)

theorem PendingMap.mem_erase (m : PendingMap) (key : Nat) (e : Nat × PendingMessage)
    (h : e ∈ m.erase key) : e ∈ m := by
  induction m with
  | nil => simp [PendingMap.erase] at h
  | cons e' rest ih =>
    obtain ⟨k, w⟩ := e'
    simp only [PendingMap.erase] at h
    split_ifs at h with hk
    · exact List.mem_cons_of_mem _ (ih h)
    · rcases List.mem_cons.mp h with h | h
      · rw [h]; exact List.mem_cons_self _ _
      · exact List.mem_cons_of_mem _ (ih h)

theorem PendingMap.mem_assign (m : PendingMap) (key : Nat) (v : PendingMessage)
    (e : Nat × PendingMessage) (h : e ∈ m.assign key v) : e ∈ m ∨ e = (key, v) := by
  induction m with
  | nil => simp [PendingMap.assign] at h
  | cons e' rest ih =>
    obtain ⟨k, w⟩ := e'
    simp only [PendingMap.assign] at h
    split_ifs at h with hk
    · rcases List.mem_cons.mp h with h | h
      · right; rw [h, hk]
      · left; exact List.mem_cons_of_mem _ h
    · rcases List.mem_cons.mp h with h | h
      · left; rw [h]; exact List.mem_cons_self _ _
      · rcases ih h with h | h
        · left; exact List.mem_cons_of_mem _ h
        · right; exact h

theorem PendingMap.mem_emplace (m : PendingMap) (key : Nat) (v : PendingMessage)
    (e : Nat × PendingMessage) (h : e ∈ m.emplace key v) : e ∈ m ∨ e = (key, v) := by
  have hins : ∀ l : PendingMap, e ∈ l.insertOrdered key v → e ∈ l ∨ e = (key, v) := by
    intro l
    induction l with
    | nil =>
      intro h
      right
      simpa [PendingMap.insertOrdered] using h
    | cons e' rest ih =>
      obtain ⟨k, w⟩ := e'
      intro h
      simp only [PendingMap.insertOrdered] at h
      split_ifs at h with hk
      · rcases List.mem_cons.mp h with h | h
        · right; exact h
        · left; exact h
      · rcases List.mem_cons.mp h with h | h
        · left; rw [h]; exact List.mem_cons_self _ _
        · rcases ih h with h | h
          · left; exact List.mem_cons_of_mem _ h
          · right; exact h
  unfold PendingMap.emplace at h
  split_ifs at h
  · left; exact h
  · exact hins m h

theorem addFrame_invariant (p : Parser) (frame : String)
    (hinv : ∀ e ∈ p.pendingMessages, SessionInvariant e.2) :
    ∀ e ∈ (addFrame p frame).parser.pendingMessages, SessionInvariant e.2 := by
  rcases addFrame_cases p frame with h | ⟨b₀, b₁, b₂, b₃, b₄, b₅, b₆, b₇, b₈, b₉, hdec⟩
  · rw [h]; exact hinv
  · rcases addFrame_effect p frame _ _ _ _ _ _ _ _ _ _ hdec with
      ⟨e, _, h⟩ | h | ⟨payload, h⟩ | ⟨h6, h₃, h⟩ | ⟨s, _, _, h⟩ | ⟨s, hs, hopen, h⟩ | h
    · rw [h]; exact hinv
    · rw [h]; exact hinv
    · rw [h]; exact hinv
    · rw [h]
      intro e he
      rcases PendingMap.mem_emplace _ _ _ _ he with he | he
      · exact hinv e he
      · rw [he]
        unfold SessionInvariant
        simp only [List.length_cons, List.length_nil]
        refine ⟨by omega, by omega, 0, by omega, by omega⟩
    · rw [h]
      intro e he
      exact hinv e (PendingMap.mem_erase _ _ _ he)
    · rw [h]
      intro e he
      rcases PendingMap.mem_assign _ _ _ _ he with he | he
      · exact hinv e he
      · rw [he]
        have hsession : SessionInvariant s := hinv _ (PendingMap.mem_of_find _ _ _ hs)
        obtain ⟨hlt, hmax, k, hk, hidx⟩ := hsession
        have hmod : (s.expectedSize + 2 ^ 64 - s.payload.length) % 2 ^ 64 =
            s.expectedSize - s.payload.length := by omega
        rw [hmod] at hopen
        simp only [List.length_append, List.length_take, List.length_cons,
          List.length_nil] at hopen
        unfold SessionInvariant
        simp only [hmod, List.length_append, List.length_take, List.length_cons,
          List.length_nil]
        refine ⟨by omega, hmax, k + 1, by omega, ?_⟩
        rw [hidx]
        omega
    · rw [h]
      intro e he
      exact hinv e (PendingMap.mem_erase _ _ _ (PendingMap.mem_erase _ _ _ he))

theorem addFrames_invariant (frames : List String) :
    ∀ p : Parser, (∀ e ∈ p.pendingMessages, SessionInvariant e.2) →
      ∀ e ∈ (addFrames p frames).parser.pendingMessages, SessionInvariant e.2 := by
  induction frames with
  | nil => exact fun p hinv => hinv
  | cons frame rest ih =>
    intro p hinv
    cases hthrow : (addFrame p frame).thrown with
    | some e =>
      have hstep := addFrame_eta p frame
      rw [hthrow] at hstep
      rw [addFrames_cons_thrown _ _ _ _ _ hstep]
      exact addFrame_invariant p frame hinv
    | none =>
      have hstep := addFrame_eta p frame
      rw [hthrow] at hstep
      rw [addFrames_cons_ok _ _ _ _ hstep]
      exact ih _ (addFrame_invariant p frame hinv)

theorem reachable_invariant (p : Parser) (hreach : Reachable p) :
    ∀ e ∈ p.pendingMessages, SessionInvariant e.2 := by
  obtain ⟨frames, hframes⟩ := hreach
  have h := addFrames_invariant frames Parser.empty (by simp [Parser.empty])
  rw [hframes] at h
  exact h

/-- C19: in every state reachable from the fresh parser by accepted `addFrame` calls,
every pending session, whether taken as an entry of the table or as the result of a
lookup, holds `6 + 7 * k` payload bytes for some `k`, at least 6 and fewer than its
expected size, which is at most 4095, and expects the index `(k + 1) mod 16`, a value
below 16. So the `size_t` subtraction `expectedSize - payload.size()` of line 163 does not
wrap, and the number of bytes the handler appends, `min(remainingData, 7)`, is at
least 1. -/
theorem reachable_sessions_well_formed (p : Parser) (hreach : Reachable p) :
    ∀ (key : Nat) (s : PendingMessage),
      ((key, s) ∈ p.pendingMessages ∨ p.pendingMessages.find key = some s) →
      6 ≤ s.payload.length ∧ s.payload.length < s.expectedSize ∧ s.expectedSize ≤ 4095 ∧
      (∃ k, s.payload.length = 6 + 7 * k ∧ s.expectedIndex = (k + 1) % 16) ∧
      s.expectedIndex < 16 ∧
      (s.expectedSize + 2 ^ 64 - s.payload.length) % 2 ^ 64 =
        s.expectedSize - s.payload.length ∧
      1 ≤ min ((s.expectedSize + 2 ^ 64 - s.payload.length) % 2 ^ 64) 7 := by
  intro key s hs
  have hmem : (key, s) ∈ p.pendingMessages := by
    rcases hs with h | h
    · exact h
    · exact PendingMap.mem_of_find _ _ _ h
  have hsession : SessionInvariant s := reachable_invariant p hreach _ hmem
  obtain ⟨hlt, hmax, k, hk, hidx⟩ := hsession
  have hmod : (s.expectedSize + 2 ^ 64 - s.payload.length) % 2 ^ 64 =
      s.expectedSize - s.payload.length := by omega
  refine ⟨by omega, hlt, hmax, ⟨k, hk, hidx⟩, by omega, hmod, ?_⟩
  rw [hmod]
  omega

/-- After the first frame and the first consecutive frame of `testMultiFrameAssembly` the
session of `0x760` holds 13 = 6 + 7 * 1 bytes and expects the index 2. -/
theorem reachable_sessions_well_formed_witness :
    Reachable ⟨[], [(0x760, ⟨26, 2, [0x61, 0x83, 0x39, 0x48, 0x4D, 0x31, 0x41, 0x34, 0x11,
      0x01, 0x00, 0x02, 0x65]⟩)]⟩ ∧
    ∃ k, 13 = 6 + 7 * k ∧ 2 = (k + 1) % 16 :=
  ⟨⟨["760101A618339484D31", "7602141341101000265"], by decide⟩,
   (reachable_sessions_well_formed
      ⟨[], [(0x760, ⟨26, 2, [0x61, 0x83, 0x39, 0x48, 0x4D, 0x31, 0x41, 0x34, 0x11,
        0x01, 0x00, 0x02, 0x65]⟩)]⟩
      ⟨["760101A618339484D31", "7602141341101000265"], by decide⟩ 0x760
      ⟨26, 2, [0x61, 0x83, 0x39, 0x48, 0x4D, 0x31, 0x41, 0x34, 0x11, 0x01, 0x00, 0x02, 0x65]⟩
      (Or.inr (by decide))).2.2.2.1⟩

/-! ## Consecutive frames: the accepted ones -/

/-- C17: in a reachable state with a session open for an id, a consecutive frame for the
id that carries the expected index is accepted. It appends to the collected payload the
first `min(7, expectedSize - payload size)` bytes of the frame from offset 3, at least
one. If the payload then has the expected size, the session is removed and one message
with the id and that payload is appended to the output; otherwise the output is as before
and the session stays, with the payload so extended and the expected index
`(old + 1) mod 16`, which is below 16 and is 0 after 15. Sessions of other ids are as
before. -/
theorem consecutive_frame_in_order (p : Parser) (hreach : Reachable p) (frame : String)
    (c₀ c₁ c₂ c₃ c₄ c₅ c₆ c₇ c₈ c₉ : Nat) (s : PendingMessage)
    (hdec : stringToBuffer frame = .ok [c₀, c₁, c₂, c₃, c₄, c₅, c₆, c₇, c₈, c₉])
    (htype : c₂ / 16 = 2)
    (hopen : p.pendingMessages.find (256 * c₀ + c₁) = some s)
    (hseq : c₂ % 16 = s.expectedIndex) :
    ∃ bytes : CanBuffer,
      bytes = (List.drop 3 [c₀, c₁, c₂, c₃, c₄, c₅, c₆, c₇, c₈, c₉]).take
        (min 7 (s.expectedSize - s.payload.length)) ∧
      bytes.length = min 7 (s.expectedSize - s.payload.length) ∧
      1 ≤ bytes.length ∧
      (addFrame p frame).thrown = none ∧
      (s.payload.length + bytes.length = s.expectedSize →
        (addFrame p frame).parser.parsedMessages =
          p.parsedMessages ++ [⟨256 * c₀ + c₁, s.payload ++ bytes⟩] ∧
        (addFrame p frame).parser.pendingMessages.find (256 * c₀ + c₁) = none) ∧
      (s.payload.length + bytes.length ≠ s.expectedSize →
        (addFrame p frame).parser.parsedMessages = p.parsedMessages ∧
        (addFrame p frame).parser.pendingMessages.find (256 * c₀ + c₁) =
          some ⟨s.expectedSize, (s.expectedIndex + 1) % 16, s.payload ++ bytes⟩) ∧
      (s.expectedIndex + 1) % 16 < 16 ∧
      (s.expectedIndex = 15 → (s.expectedIndex + 1) % 16 = 0) ∧
      ∀ k, k ≠ 256 * c₀ + c₁ →
        (addFrame p frame).parser.pendingMessages.find k = p.pendingMessages.find k := by
  have hsession : SessionInvariant s :=
    reachable_invariant p hreach _ (PendingMap.mem_of_find _ _ _ hopen)
  obtain ⟨hlt, hmax, _⟩ := hsession
  have hstep := addFrame_consecutive_expected p frame _ _ _ _ _ _ _ _ _ _ s hdec htype hopen
    hseq (Nat.le_of_lt hlt) (by omega)
  have hcomm : min (s.expectedSize - s.payload.length) 7 =
      min 7 (s.expectedSize - s.payload.length) := Nat.min_comm _ _
  rw [hcomm] at hstep
  have hlen : ((List.drop 3 [c₀, c₁, c₂, c₃, c₄, c₅, c₆, c₇, c₈, c₉]).take
      (min 7 (s.expectedSize - s.payload.length))).length =
      min 7 (s.expectedSize - s.payload.length) := by
    simp only [List.drop, List.length_take, List.length_cons, List.length_nil]
    omega
  refine ⟨_, rfl, hlen, by rw [hlen]; omega, ?_, ?_, ?_, by omega, by omega, ?_⟩
  · rw [hstep]; split_ifs <;> rfl
  · intro hfull
    rw [hlen] at hfull
    rw [hstep, if_pos hfull]
    exact ⟨rfl, by simp [PendingMap.find_erase]⟩
  · intro hopen'
    rw [hlen] at hopen'
    rw [hstep, if_neg hopen']
    exact ⟨rfl, by simp [PendingMap.find_assign, hopen]⟩
  · intro k hk
    rw [hstep]
    split_ifs
    · simp [PendingMap.find_erase, hk]
    · simp [PendingMap.find_assign, hk]

/-- The frames of `testMultiFrameAssembly`: after the first frame, the consecutive frame
with index 1 is accepted, appends no message and leaves the session of `0x760` with 13
bytes and the expected index 2. -/
theorem consecutive_frame_in_order_witness :
    (addFrame (addFrame Parser.empty "760101A618339484D31").parser
        "7602141341101000265").thrown = none ∧
    ∀ k, k ≠ 256 * 0x7 + 0x60 →
      (addFrame (addFrame Parser.empty "760101A618339484D31").parser
        "7602141341101000265").parser.pendingMessages.find k =
      (addFrame Parser.empty "760101A618339484D31").parser.pendingMessages.find k := by
  obtain ⟨bytes, _, _, _, h4, _, _, _, _, h9⟩ :=
    consecutive_frame_in_order (addFrame Parser.empty "760101A618339484D31").parser
      ⟨["760101A618339484D31"], by decide⟩ "7602141341101000265"
      0x7 0x60 0x21 0x41 0x34 0x11 0x01 0x00 0x02 0x65
      ⟨26, 1, [0x61, 0x83, 0x39, 0x48, 0x4D, 0x31]⟩ rfl rfl (by decide) (by decide)
  exact ⟨h4, h9⟩

end CanParser
